import Mathlib

/-!
The roster panel of gomuks (`ui/view-roster.go`).

A shallow embedding of `RosterView`: the ordered list of rooms, the scroll
offset, the selection and the navigation operations, followed by the
properties of the panel that are proved about it.

Conventions of the embedding

* A `*rooms.Room` is a `RoomPtr`: `nil` or the address of a room object.  The
  room objects live outside the panel, in a `Heap` that maps an address to the
  fields the panel reads (`LastReceivedMessage`, and the answer of
  `IsReplaced()`).  The roster stores pointers, so a change of a timestamp in
  the heap is seen by the roster without any call into it.
* An instant of `time.Time` is an `Int`; `After` is the strict order.
* Go's `int` is the 64-bit two's complement integer.  Arithmetic on values
  that come from the fields `scrollOffset` and `height` or from arguments
  wraps (`wrapInt`).  Arithmetic on a position inside the slice (`index+1`,
  `index+2`, `len-1`) is bounded by `len(rstr.rooms)`, which always fits in an
  `int`, and is written without wrapping.
* A run-time panic (nil dereference, index out of range) is the result `none`.
* The mutex is not part of the state: every method is run to completion.  Where the
  order of two callers matters, the critical sections of a method are separate
  functions (`index`, `removeAfterLookup`) applied in the order of the interleaving.
* The host application is outside the panel.  `getRoomView` is reduced to its `ok`
  result, the value a room view returns for a forwarded event is a field of the
  event, and a room view is taken not to call back into the panel.  Of `Draw` the
  model keeps the state it leaves and the row and room of every block it paints.
-/

namespace Gomuks

/-! ## Machine integers -/

/-- Smallest value of Go's `int` on a 64-bit platform. -/
def minInt : Int := -(2 ^ 63)

/-- Largest value of Go's `int` on a 64-bit platform. -/
def maxInt : Int := 2 ^ 63 - 1

/-- Reduction of a mathematical integer to the 64-bit two's complement range. -/
def wrapInt (x : Int) : Int := (x + 2 ^ 63) % 2 ^ 64 - 2 ^ 63

/-- Go's `a + b` on `int`. -/
def goAdd (a b : Int) : Int := wrapInt (a + b)

/-- Go's `a - b` on `int`. -/
def goSub (a b : Int) : Int := wrapInt (a - b)

/-- Go's `a * b` on `int`. -/
def goMul (a b : Int) : Int := wrapInt (a * b)

/-- Go's `a / b` on `int` for a non-zero divisor: the quotient truncated toward zero. -/
def goDiv (a b : Int) : Int := wrapInt (Int.tdiv a b)

/-! ## Rooms and pointers to them -/

/-- A value of type `*rooms.Room`. -/
inductive RoomPtr where
  | nil
  | addr (a : Nat)
deriving DecidableEq, Repr

/-- The part of a `rooms.Room` the roster reads: the field `LastReceivedMessage`
and the value returned by `IsReplaced()`. -/
structure Room where
  LastReceivedMessage : Int
  replaced : Bool
deriving DecidableEq, Repr

/-- The room objects, by address. -/
abbrev Heap := Nat → Room

/-- The method `time.Time.After`: `t.After(u)` reports whether `t` is strictly later than `u`. -/
def After (t u : Int) : Bool := decide (u < t)

/-! ## Slices -/

/-- Go's `copy(l[off:], src)`: the first `min(len(l)-off, len(src))` elements of
`src` overwrite `l` from position `off`; `src` is read before anything is written. -/
def copyAt (l : List RoomPtr) (off : Nat) (src : List RoomPtr) : List RoomPtr :=
  let n := min (l.length - off) src.length
  l.take off ++ src.take n ++ l.drop (off + n)

/-- The element read `l[i]` with Go's bounds check. -/
def elemAt (l : List RoomPtr) (i : Int) : Option RoomPtr :=
  if 0 ≤ i then l.get? i.toNat else none

/-! ## The panel -/

/-- The fields of `RosterView` that carry state (`parent`, the embedded component
and the mutex carry none that the operations below read). -/
structure RosterView where
  selected : RoomPtr
  rooms : List RoomPtr
  scrollOffset : Int
  height : Int
  width : Int
  focused : Bool
deriving DecidableEq, Repr

/-- The constructor `NewRosterView`: an empty roster, every other field at its zero value. -/
def NewRosterView : RosterView :=
  { selected := .nil, rooms := [], scrollOffset := 0, height := 0, width := 0, focused := false }

/-- Outcome of the scan loop of `Add`. -/
inductive Scan where
  | fault
  | found
  | insertAt (i : Nat)
deriving DecidableEq, Repr

/-- The `for` loop of `Add` from position `i` on, over the entries not yet visited:
`found` is the early `return`, `insertAt i` the `break`, and when the loop runs
off the end `i = len(rstr.rooms)`, the initial value of `insertAt`.  Reading the
timestamp of a nil entry is a fault. -/
def addScan (heap : Heap) (a : Nat) : List RoomPtr → Nat → Scan
  | [], i => .insertAt i
  | .nil :: _, _ => .fault
  | .addr b :: rest, i =>
    if b = a then .found
    else if After (heap a).LastReceivedMessage (heap b).LastReceivedMessage then .insertAt i
    else addScan heap a rest (i + 1)

namespace RosterView

/-- The method `Add`.  `room.IsReplaced()` reads the room, so a nil `room` is a fault; a
tombstoned room returns at once.  After the scan, `append(rstr.rooms, nil)` grows the slice
by one, `copy(rstr.rooms[insertAt+1:], rstr.rooms[insertAt:len(rstr.rooms)-1])` shifts the
tail, and `rstr.rooms[insertAt] = room` writes the new entry (`insertAt` is at most the old
length, so none of the three is out of range). -/
def Add (heap : Heap) (rstr : RosterView) (room : RoomPtr) : Option RosterView :=
  match room with
  | .nil => none
  | .addr a =>
    if (heap a).replaced then some rstr
    else
      match addScan heap a rstr.rooms 0 with
      | .fault => none
      | .found => some rstr
      | .insertAt insertAt =>
        let rooms1 := rstr.rooms ++ [RoomPtr.nil]
        let rooms2 := copyAt rooms1 (insertAt + 1) ((rooms1.take (rooms1.length - 1)).drop insertAt)
        some { rstr with rooms := rooms2.set insertAt room }

/-- The `range` loop of `index`, from position `i` on. -/
def indexFrom (room : RoomPtr) : List RoomPtr → Int → Int
  | [], _ => -1
  | entry :: rest, i => if entry = room then i else indexFrom room rest (i + 1)

/-- The method `index`: position of the first entry equal to `room`, or `-1`. -/
def index (rstr : RosterView) (room : RoomPtr) : Int :=
  indexFrom room rstr.rooms 0

/-- The part of `Remove` that runs under the lock, for an already computed `index`:
`copy(rstr.rooms[index:], rstr.rooms[index+1:])` when `index < last` (a negative `index` is
out of range there), then `rstr.rooms[last] = nil` (out of range on an empty slice) and the
truncation `rstr.rooms[:last]`. -/
def removeAt (rstr : RosterView) (index : Int) : Option RosterView :=
  let last : Int := (rstr.rooms.length : Int) - 1
  if index < last ∧ index < 0 then none
  else
    let rooms1 :=
      if index < last then copyAt rstr.rooms index.toNat (rstr.rooms.drop (index.toNat + 1))
      else rstr.rooms
    if last < 0 then none
    else some { rstr with rooms := (rooms1.set last.toNat RoomPtr.nil).take last.toNat }

/-- The method `Remove`: the lookup, the guard `index < 0 || index > len(rstr.rooms)`, and
the deletion. -/
def Remove (rstr : RosterView) (room : RoomPtr) : Option RosterView :=
  let index := rstr.index room
  if index < 0 ∨ index > (rstr.rooms.length : Int) then some rstr
  else rstr.removeAt index

/-- The method `Bump`. -/
def Bump (heap : Heap) (rstr : RosterView) (room : RoomPtr) : Option RosterView :=
  (rstr.Remove room).bind fun rstr1 => rstr1.Add heap room

/-- The method `First`: `rstr.rooms[0]`, out of range on an empty roster. -/
def First (rstr : RosterView) : Option RoomPtr :=
  elemAt rstr.rooms 0

/-- The method `Last`: `rstr.rooms[len(rstr.rooms)-1]`, out of range on an empty roster. -/
def Last (rstr : RosterView) : Option RoomPtr :=
  elemAt rstr.rooms ((rstr.rooms.length : Int) - 1)

/-- The method `VisualScrollHeight`; the receiver is not read. -/
def VisualScrollHeight (_rstr : RosterView) (start end_ : Int) : Int :=
  if start < 0 ∨ start > end_ then -1
  else goAdd 3 (goMul 2 (goSub end_ start))

/-- The method `RoomsOnScreen`. -/
def RoomsOnScreen (rstr : RosterView) : Int :=
  goDiv (goSub rstr.height 3) 2

/-- The method `IndexOfLastVisibleRoom`. -/
def IndexOfLastVisibleRoom (rstr : RosterView) : Int :=
  goAdd rstr.scrollOffset rstr.RoomsOnScreen

/-- The method `ScrollNext`. -/
def ScrollNext (rstr : RosterView) : Option RosterView :=
  let index := rstr.index rstr.selected
  if index = -1 then
    rstr.First.map fun room => { rstr with selected := room, scrollOffset := 0 }
  else if index < (rstr.rooms.length : Int) - 1 then
    (elemAt rstr.rooms (index + 1)).map fun room =>
      if rstr.VisualScrollHeight rstr.scrollOffset (index + 2) ≥ rstr.height then
        { rstr with selected := room, scrollOffset := goAdd rstr.scrollOffset 1 }
      else { rstr with selected := room }
  else some rstr

/-- The method `ScrollPrev`. -/
def ScrollPrev (rstr : RosterView) : Option RosterView :=
  let index := rstr.index rstr.selected
  if index > 0 then
    (elemAt rstr.rooms (index - 1)).map fun room =>
      if index = rstr.scrollOffset then
        { rstr with selected := room, scrollOffset := goSub rstr.scrollOffset 1 }
      else { rstr with selected := room }
  else some rstr

end RosterView

/-! ## Vocabulary of the statements -/

/-- Timestamp of the room an entry points to (`0` for the nil pointer, which has none). -/
def lastActivity (heap : Heap) : RoomPtr → Int
  | .addr a => (heap a).LastReceivedMessage
  | .nil => 0

/-- No entry of the list is the nil pointer. -/
def NoNil (l : List RoomPtr) : Prop := RoomPtr.nil ∉ l

/-- The list is ordered most recent first. -/
def SortedByActivity (heap : Heap) (l : List RoomPtr) : Prop :=
  l.Pairwise fun x y => lastActivity heap x ≥ lastActivity heap y

/-- Position of the first entry strictly older than room `a`, the length of the list when
there is none. -/
def insertPos (heap : Heap) (a : Nat) (l : List RoomPtr) : Nat :=
  l.findIdx fun x => decide (lastActivity heap x < (heap a).LastReceivedMessage)

instance (l : List RoomPtr) : Decidable (NoNil l) := by unfold NoNil; infer_instance
instance (heap : Heap) (l : List RoomPtr) : Decidable (SortedByActivity heap l) := by
  unfold SortedByActivity; infer_instance

/-- The roster invariant: no nil entry, most recent first, no entry twice. -/
def RosterOk (heap : Heap) (l : List RoomPtr) : Prop :=
  NoNil l ∧ SortedByActivity heap l ∧ l.Nodup

/-- A call of one of the three mutators on the room at address `a`. -/
inductive RosterCall where
  | Add (a : Nat)
  | Remove (a : Nat)
  | Bump (a : Nat)
deriving DecidableEq, Repr

namespace RosterView

/-- One mutator call. -/
def call (heap : Heap) (rstr : RosterView) : RosterCall → Option RosterView
  | .Add a => rstr.Add heap (.addr a)
  | .Remove a => rstr.Remove (.addr a)
  | .Bump a => rstr.Bump heap (.addr a)

/-- A sequence of mutator calls, one after the other, over a heap that does not change. -/
def run (heap : Heap) (rstr : RosterView) : List RosterCall → Option RosterView
  | [] => some rstr
  | c :: cs => (rstr.call heap c).bind fun rstr1 => rstr1.run heap cs

end RosterView

/-- The list `l` with `room` placed at position `p`; the entries of `l` keep their order. -/
def insertAtPos (l : List RoomPtr) (p : Nat) (room : RoomPtr) : List RoomPtr :=
  l.take p ++ room :: l.drop p

/-- The insertion position in the words of the specification: the position of the first
entry whose timestamp is not after that of room `a` (an entry with the same timestamp
counts), the length of the list when there is none. -/
def specInsertPos (heap : Heap) (a : Nat) (l : List RoomPtr) : Nat :=
  l.findIdx fun x => decide (lastActivity heap x ≤ (heap a).LastReceivedMessage)

/-- The assignment `room.LastReceivedMessage = t` made outside the panel when a message
arrives in the room at address `a`. -/
def touch (heap : Heap) (a : Nat) (t : Int) : Heap :=
  fun b => if b = a then { heap b with LastReceivedMessage := t } else heap b

/-- A heap in which every room has the timestamp 600 and none is tombstoned. -/
def tieHeap : Heap := fun _ => { LastReceivedMessage := 600, replaced := false }

/-- A roster holding the single room 0. -/
def tieRoster : RosterView := { NewRosterView with rooms := [.addr 0] }

/-- Rooms A = 0 (10:00, minute 600), B = 1 (09:00, minute 540) and C = 2 (08:00, minute 480). -/
def abcHeap : Heap := fun a =>
  match a with
  | 0 => { LastReceivedMessage := 600, replaced := false }
  | 1 => { LastReceivedMessage := 540, replaced := false }
  | _ => { LastReceivedMessage := 480, replaced := false }

/-- The roster [A, B, C]. -/
def abcRoster : RosterView := { NewRosterView with rooms := [.addr 0, .addr 1, .addr 2] }

/-- Room 0 at minute 540 and room 1 at minute 480, neither tombstoned. -/
def staleHeapBefore : Heap := fun a =>
  match a with
  | 0 => { LastReceivedMessage := 540, replaced := false }
  | _ => { LastReceivedMessage := 480, replaced := false }

/-- The roster [0, 1]: what `Add` of room 0 and then of room 1 builds over `staleHeapBefore`. -/
def staleRoster : RosterView := { NewRosterView with rooms := [.addr 0, .addr 1] }

/-- The value the specification gives for `RoomsOnScreen` at viewport height `h`:
the floor of `(h - 3) / 2`. -/
def specRoomsOnScreen (h : Int) : Int := ⌊((h : ℚ) - 3) / 2⌋

/-- Five rooms in a viewport of height 7, nothing selected, scroll offset 0. -/
def fiveRooms : RosterView :=
  { NewRosterView with rooms := [.addr 0, .addr 1, .addr 2, .addr 3, .addr 4], height := 7 }

/-! ## Collaborators, events and the handlers -/

/-- What the panel uses of its `parent`: `getRoomView a` is the `ok` that
`rstr.parent.getRoomView(room.ID, true)` returns for the room at address `a`.  The room
view itself belongs to the host application. -/
structure MainView where
  getRoomView : Nat → Bool

/-- A key event as the panel reads it: `command` is the string
`rstr.parent.config.Keybindings.Roster[kb]` the key resolves to (the empty string for a key
without binding), `forwarded` the value `roomView.OnKeyEvent(event)` returns if the event
goes to the room view. -/
structure KeyEvent where
  command : String
  forwarded : Bool

/-- The values of `event.Buttons()` the panel tells apart. -/
inductive Buttons where
  | WheelUp
  | WheelDown
  | Button1
  | other
deriving DecidableEq, Repr

/-- A mouse event as the panel reads it: `HasMotion()`, `Buttons()`, the row `y` of
`Position()`, and the value `roomView.OnMouseEvent(event)` returns if the event goes to
the room view. -/
structure MouseEvent where
  hasMotion : Bool
  buttons : Buttons
  y : Int
  forwarded : Bool

/-- Outcome of the test `if rstr.focused { if roomView, ok := getRoomView(rstr.selected.ID, true); ok {` -/
inductive Delegation where
  | fault
  | delegated
  | passed
deriving DecidableEq, Repr

/-- The loop of `Draw` over the entries from `scrollOffset` on, the next block starting at
row `y`: the list of the blocks painted, each as the row of its title line (the preview
line is the row below) and the room.  A tombstoned room is skipped without moving `y`;
`room.IsReplaced()` on a nil entry is a fault. -/
def drawLoop (heap : Heap) (height : Int) : List RoomPtr → Int → Option (List (Int × RoomPtr))
  | [], _ => some []
  | .nil :: _, _ => none
  | .addr a :: rest, y =>
    if (heap a).replaced then drawLoop heap height rest y
    else
      let renderHeight := if goAdd y 2 ≥ height then goSub height y else 2
      if goAdd y renderHeight ≥ height then some [(y, RoomPtr.addr a)]
      else (drawLoop heap height rest (goAdd y renderHeight)).map fun blocks =>
        (y, RoomPtr.addr a) :: blocks

namespace RosterView

/-- The head shared by `Draw` and `OnMouseEvent`: when focused, `rstr.selected.ID` is read
(a fault when nothing is selected) and the call goes to the room view if there is one. -/
def delegate (parent : MainView) (rstr : RosterView) : Delegation :=
  if rstr.focused then
    match rstr.selected with
    | .nil => .fault
    | .addr a => if parent.getRoomView a then .delegated else .passed
  else .passed

/-- The method `Draw` on a screen of the given size: the state it leaves and the blocks of
the roster it paints (none when the room view draws instead).  The slice expression
`rstr.rooms[rstr.scrollOffset:]` is out of range unless `0 <= scrollOffset <= len`. -/
def Draw (heap : Heap) (parent : MainView) (rstr : RosterView) (width height : Int) :
    Option (RosterView × List (Int × RoomPtr)) :=
  match rstr.delegate parent with
  | .fault => none
  | .delegated => some (rstr, [])
  | .passed =>
    if rstr.scrollOffset < 0 ∨ rstr.scrollOffset > (rstr.rooms.length : Int) then none
    else
      (drawLoop heap height (rstr.rooms.drop rstr.scrollOffset.toNat) 4).map fun blocks =>
        ({ rstr with width := width, height := height }, blocks)

/-- The `switch` of `OnKeyEvent`; the second component is the value returned.  The call
`rstr.parent.gmx.Stop(true)` of "quit" leaves the panel as it is. -/
def keySwitch (rstr : RosterView) (command : String) : Option (RosterView × Bool) :=
  if command = "next_room" then rstr.ScrollNext.map fun r => (r, true)
  else if command = "prev_room" then rstr.ScrollPrev.map fun r => (r, true)
  else if command = "clear" then some ({ rstr with selected := .nil }, true)
  else if command = "quit" then some (rstr, true)
  else if command = "enter" then
    some ({ rstr with focused := decide (rstr.selected ≠ RoomPtr.nil) }, true)
  else some (rstr, false)

/-- The method `OnKeyEvent`. -/
def OnKeyEvent (parent : MainView) (rstr : RosterView) (event : KeyEvent) :
    Option (RosterView × Bool) :=
  if rstr.focused then
    if event.command = "clear" then
      keySwitch { rstr with focused := false, selected := .nil } event.command
    else
      match rstr.selected with
      | .nil => none
      | .addr a =>
        if parent.getRoomView a then some (rstr, event.forwarded)
        else rstr.keySwitch event.command
  else rstr.keySwitch event.command

/-- The method `OnMouseEvent`. -/
def OnMouseEvent (parent : MainView) (rstr : RosterView) (event : MouseEvent) :
    Option (RosterView × Bool) :=
  match rstr.delegate parent with
  | .fault => none
  | .delegated => some (rstr, event.forwarded)
  | .passed =>
    if event.hasMotion then some (rstr, false)
    else
      match event.buttons with
      | .WheelUp => rstr.ScrollPrev.map fun r => (r, true)
      | .WheelDown => rstr.ScrollNext.map fun r => (r, true)
      | .Button1 =>
        if event.y ≤ 3 ∨
            event.y > rstr.VisualScrollHeight rstr.scrollOffset rstr.IndexOfLastVisibleRoom then
          some (rstr, false)
        else
          let index := goSub (goAdd rstr.scrollOffset (goDiv event.y 2)) 2
          if index > (rstr.rooms.length : Int) - 1 then some (rstr, false)
          else (elemAt rstr.rooms index).map fun room =>
            ({ rstr with selected := room, focused := true }, true)
      | .other => some (rstr, false)

/-- The second half of `Remove`, from the guard on, for an `index` looked up earlier: the
lookup releases the lock before the deletion takes it again. -/
def removeAfterLookup (rstr : RosterView) (index : Int) : Option RosterView :=
  if index < 0 ∨ index > (rstr.rooms.length : Int) then some rstr
  else rstr.removeAt index

end RosterView

/-- A step of navigation. -/
inductive Nav where
  | next
  | prev
deriving DecidableEq, Repr

/-- A call into the panel from outside: a mutator on the room at an address, over the heap
as it is at that moment, an input event, or a redraw on a screen of some size. -/
inductive PanelCall where
  | Add (heap : Heap) (a : Nat)
  | Remove (a : Nat)
  | Bump (heap : Heap) (a : Nat)
  | Key (parent : MainView) (event : KeyEvent)
  | Mouse (parent : MainView) (event : MouseEvent)
  | Draw (heap : Heap) (parent : MainView) (width height : Int)

namespace RosterView

/-- A sequence of `ScrollNext` and `ScrollPrev` calls. -/
def navigate (rstr : RosterView) : List Nav → Option RosterView
  | [] => some rstr
  | .next :: steps => rstr.ScrollNext.bind fun r => r.navigate steps
  | .prev :: steps => rstr.ScrollPrev.bind fun r => r.navigate steps

/-- One call into the panel. -/
def panelCall (rstr : RosterView) : PanelCall → Option RosterView
  | .Add heap a => rstr.Add heap (.addr a)
  | .Remove a => rstr.Remove (.addr a)
  | .Bump heap a => rstr.Bump heap (.addr a)
  | .Key parent event => (rstr.OnKeyEvent parent event).map fun p => p.1
  | .Mouse parent event => (rstr.OnMouseEvent parent event).map fun p => p.1
  | .Draw heap parent width height => (rstr.Draw heap parent width height).map fun p => p.1

/-- A sequence of calls into the panel, one after the other. -/
def panelRun (rstr : RosterView) : List PanelCall → Option RosterView
  | [] => some rstr
  | c :: cs => (rstr.panelCall c).bind fun r => r.panelRun cs

end RosterView

/-- The tombstone event reaching the room at address `a`: `IsReplaced()` is true from then on. -/
def tombstone (heap : Heap) (a : Nat) : Heap :=
  fun b => if b = a then { heap b with replaced := true } else heap b

/-- A host application with a room view for every room. -/
def allViews : MainView := { getRoomView := fun _ => true }



/-- The invariant of the panel: the roster holds no nil entry, and a focused panel has a
room selected. -/
def PanelOk (rstr : RosterView) : Prop :=
  NoNil rstr.rooms ∧ (rstr.focused = true → rstr.selected ≠ RoomPtr.nil)

/-- The states of a navigation over the roster `rooms` in a viewport of height `h`: either
the lookup of the selection finds nothing, or it finds it at an index `i` with
`0 <= scrollOffset <= i` and the lower row `5 + 2 * (i - scrollOffset)` of its block
inside the viewport. -/
def NavOk (rooms : List RoomPtr) (h : Int) (s : RosterView) : Prop :=
  s.rooms = rooms ∧ s.height = h ∧
  (s.index s.selected = -1 ∨
    ∃ i : Nat, s.index s.selected = (i : Int) ∧ 0 ≤ s.scrollOffset ∧
      s.scrollOffset ≤ (i : Int) ∧ 5 + 2 * ((i : Int) - s.scrollOffset) < h)



/-- The state after rooms A and B were added, the wheel selected A and A was removed:
the roster is [B] and the selection still points at A. -/
def removedSelection : RosterView :=
  { NewRosterView with rooms := [.addr 1], selected := .addr 0 }

/-- The roster [1, 0, 1] that a second `Add` of room 1 leaves after its timestamp rose, on a
screen of 80 by 7, nothing selected. -/
def dupRoster : RosterView :=
  { NewRosterView with rooms := [.addr 1, .addr 0, .addr 1], width := 80, height := 7 }

/-- A turn of the wheel down, which `OnMouseEvent` maps to `ScrollNext`. -/
def wheelDown : MouseEvent :=
  { hasMotion := false, buttons := .WheelDown, y := 0, forwarded := false }

open RosterView

/-! ## Slices, lookup and the two mutators -/

theorem set_take_succ_append (L R : List RoomPtr) (i : Nat) (room : RoomPtr) (hi : i < L.length) :
    (L.take (i + 1) ++ R).set i room = L.take i ++ room :: R := by
  rw [List.take_succ, List.getElem?_eq_getElem hi]
  simp only [Option.toList, List.append_assoc, List.singleton_append]
  rw [List.set_append]
  have hlen : (List.take i L).length = i := by simp; omega
  simp [hlen]

theorem insert_slices (l : List RoomPtr) (i : Nat) (room : RoomPtr) (hi : i ≤ l.length) :
    (copyAt (l ++ [RoomPtr.nil]) (i + 1)
      (((l ++ [RoomPtr.nil]).take ((l ++ [RoomPtr.nil]).length - 1)).drop i)).set i room
      = l.take i ++ room :: l.drop i := by
  have h1 : (l ++ [RoomPtr.nil]).take ((l ++ [RoomPtr.nil]).length - 1) = l := by simp
  rw [h1]
  unfold copyAt
  have h2 : min ((l ++ [RoomPtr.nil]).length - (i + 1)) (l.drop i).length = l.length - i := by
    simp
  simp only [h2]
  have h3 : (l.drop i).take (l.length - i) = l.drop i := List.take_of_length_le (by simp)
  have h4 : (l ++ [RoomPtr.nil]).drop (i + 1 + (l.length - i)) = [] :=
    List.drop_eq_nil_of_le (by simp; omega)
  rw [h3, h4, List.append_nil, set_take_succ_append _ _ _ _ (by simp; omega)]
  rw [List.take_append_of_le_length hi]

theorem remove_slices (l : List RoomPtr) (i : Nat) (hi : i < l.length) :
    ((if (i : Int) < (l.length : Int) - 1 then copyAt l i (l.drop (i + 1)) else l).set
        (l.length - 1) RoomPtr.nil).take (l.length - 1) = l.eraseIdx i := by
  rw [List.eraseIdx_eq_take_drop_succ]
  split
  · rename_i h
    have hi2 : i + 1 < l.length := by omega
    unfold copyAt
    have h2 : min (l.length - i) (l.drop (i + 1)).length = l.length - (i + 1) := by
      simp; omega
    simp only [h2]
    have h3 : (l.drop (i + 1)).take (l.length - (i + 1)) = l.drop (i + 1) :=
      List.take_of_length_le (by simp)
    rw [h3]
    have hlen : (List.take i l ++ List.drop (i + 1) l).length = l.length - 1 := by
      simp; omega
    rw [List.set_append, if_neg (by omega), List.take_append_of_le_length (by omega),
      List.take_of_length_le (by omega)]
  · rename_i h
    have hi2 : i = l.length - 1 := by omega
    rw [List.drop_eq_nil_of_le (by omega), List.append_nil, ← hi2]
    apply List.ext_getElem
    · simp
    · intro n h1 h2
      simp at h1
      simp [List.getElem_take, List.getElem_set]
      omega

theorem indexFrom_eq (room : RoomPtr) : ∀ (l : List RoomPtr) (k : Int),
    indexFrom room l k = if room ∈ l then k + (l.indexOf room : Int) else -1
  | [], k => by simp [indexFrom]
  | entry :: rest, k => by
    by_cases h : entry = room
    · simp [indexFrom, h]
    · have h2 : ¬ room = entry := fun e => h e.symm
      rw [indexFrom, if_neg h, indexFrom_eq room rest (k + 1)]
      simp only [List.mem_cons, h2, false_or, List.indexOf_cons]
      have : (entry == room) = false := by simpa using h
      simp only [this, cond_false]
      split
      · push_cast; ring
      · rfl

theorem index_eq (rstr : RosterView) (room : RoomPtr) :
    rstr.index room = if room ∈ rstr.rooms then (rstr.rooms.indexOf room : Int) else -1 := by
  unfold index
  rw [indexFrom_eq]
  simp

theorem index_eq_neg_one_iff (rstr : RosterView) (room : RoomPtr) :
    rstr.index room = -1 ↔ room ∉ rstr.rooms := by
  rw [index_eq]
  split
  · rename_i h
    simp only [h, not_true_eq_false, iff_false]
    omega
  · rename_i h
    simp [h]

theorem removeAt_eq (rstr : RosterView) (i : Nat) (hi : i < rstr.rooms.length) :
    rstr.removeAt (i : Int) = some { rstr with rooms := rstr.rooms.eraseIdx i } := by
  unfold removeAt
  have h0 : ¬ ((i : Int) < (rstr.rooms.length : Int) - 1 ∧ (i : Int) < 0) := by omega
  have h1 : ¬ ((rstr.rooms.length : Int) - 1 < 0) := by omega
  have h2 : ((rstr.rooms.length : Int) - 1).toNat = rstr.rooms.length - 1 := by omega
  simp only [h0, h1, if_false, Int.toNat_ofNat, h2]
  rw [remove_slices rstr.rooms i hi]

theorem Remove_eq (rstr : RosterView) (room : RoomPtr) :
    rstr.Remove room = some { rstr with rooms := rstr.rooms.erase room } := by
  unfold Remove
  simp only [index_eq]
  by_cases h : room ∈ rstr.rooms
  · have hlt : rstr.rooms.indexOf room < rstr.rooms.length := List.indexOf_lt_length.mpr h
    simp only [h, if_true]
    rw [if_neg (by omega), removeAt_eq rstr _ hlt, List.eraseIdx_indexOf_eq_erase]
  · simp only [h, if_false]
    rw [if_pos (by omega), List.erase_of_not_mem h]

theorem insertPos_cons (heap : Heap) (a : Nat) (x : RoomPtr) (rest : List RoomPtr) :
    insertPos heap a (x :: rest) =
      if lastActivity heap x < (heap a).LastReceivedMessage then 0
      else insertPos heap a rest + 1 := by
  unfold insertPos
  rw [List.findIdx_cons]
  by_cases h : lastActivity heap x < (heap a).LastReceivedMessage <;> simp [h]

theorem insertPos_le (heap : Heap) (a : Nat) (l : List RoomPtr) :
    insertPos heap a l ≤ l.length := List.findIdx_le_length _

theorem addScan_found (heap : Heap) (a : Nat) : ∀ (l : List RoomPtr) (i : Nat),
    NoNil l → RoomPtr.addr a ∈ l.take (insertPos heap a l) → addScan heap a l i = Scan.found
  | [], i, _, h => by simp at h
  | .nil :: rest, i, hn, _ => by simp [NoNil] at hn
  | .addr b :: rest, i, hn, h => by
    rw [insertPos_cons] at h
    by_cases hlt : lastActivity heap (RoomPtr.addr b) < (heap a).LastReceivedMessage
    · simp [hlt] at h
    · rw [if_neg hlt, List.take_succ_cons, List.mem_cons] at h
      by_cases hb : b = a
      · simp [addScan, hb]
      · have hA : After (heap a).LastReceivedMessage (heap b).LastReceivedMessage = false := by
          simpa [After, lastActivity] using hlt
        have hn2 : NoNil rest := fun hm => hn (List.mem_cons_of_mem _ hm)
        have h3 : RoomPtr.addr a ∈ rest.take (insertPos heap a rest) := by
          rcases h with h | h
          · exact absurd (RoomPtr.addr.inj h).symm hb
          · exact h
        simp only [addScan, hb, if_false, hA, Bool.false_eq_true]
        exact addScan_found heap a rest (i + 1) hn2 h3

theorem addScan_insert (heap : Heap) (a : Nat) : ∀ (l : List RoomPtr) (i : Nat),
    NoNil l → RoomPtr.addr a ∉ l.take (insertPos heap a l) →
    addScan heap a l i = Scan.insertAt (i + insertPos heap a l)
  | [], i, _, _ => by simp [addScan, insertPos]
  | .nil :: rest, i, hn, _ => by simp [NoNil] at hn
  | .addr b :: rest, i, hn, h => by
    rw [insertPos_cons] at h ⊢
    by_cases hlt : lastActivity heap (RoomPtr.addr b) < (heap a).LastReceivedMessage
    · have hA : After (heap a).LastReceivedMessage (heap b).LastReceivedMessage = true := by
        simpa [After, lastActivity] using hlt
      have hb : ¬ b = a := by
        intro e
        subst e
        simp [lastActivity] at hlt
      simp [addScan, hb, hA, hlt]
    · rw [if_neg hlt, List.take_succ_cons, List.mem_cons, not_or] at h
      have hA : After (heap a).LastReceivedMessage (heap b).LastReceivedMessage = false := by
        simpa [After, lastActivity] using hlt
      have hb : ¬ b = a := fun e => h.1 (by rw [e])
      have hn2 : NoNil rest := fun hm => hn (List.mem_cons_of_mem _ hm)
      simp only [addScan, hb, if_false, hA, hlt, Bool.false_eq_true]
      rw [addScan_insert heap a rest (i + 1) hn2 h.2,
        show i + 1 + insertPos heap a rest = i + (insertPos heap a rest + 1) by omega]

theorem Add_eq_insert (heap : Heap) (rstr : RosterView) (a : Nat) (hn : NoNil rstr.rooms)
    (hr : (heap a).replaced = false)
    (h : RoomPtr.addr a ∉ rstr.rooms.take (insertPos heap a rstr.rooms)) :
    rstr.Add heap (.addr a) = some { rstr with
      rooms := (rstr.rooms.take (insertPos heap a rstr.rooms) ++
        RoomPtr.addr a :: rstr.rooms.drop (insertPos heap a rstr.rooms)) } := by
  unfold RosterView.Add
  simp only [hr, addScan_insert heap a rstr.rooms 0 hn h, Nat.zero_add]
  rw [insert_slices _ _ _ (insertPos_le heap a rstr.rooms)]
  simp

theorem Add_eq_self (heap : Heap) (rstr : RosterView) (a : Nat) (hn : NoNil rstr.rooms)
    (h : RoomPtr.addr a ∈ rstr.rooms.take (insertPos heap a rstr.rooms)) :
    rstr.Add heap (.addr a) = some rstr := by
  unfold RosterView.Add
  simp only [addScan_found heap a rstr.rooms 0 hn h]
  split <;> rfl

theorem Add_replaced (heap : Heap) (rstr : RosterView) (a : Nat)
    (hr : (heap a).replaced = true) : rstr.Add heap (.addr a) = some rstr := by
  simp [RosterView.Add, hr]

/-! ## The order of the roster -/

theorem lastActivity_addr (heap : Heap) (a : Nat) :
    lastActivity heap (RoomPtr.addr a) = (heap a).LastReceivedMessage := rfl

theorem mem_take_insertPos_of_sorted (heap : Heap) (a : Nat) : ∀ (l : List RoomPtr),
    SortedByActivity heap l → RoomPtr.addr a ∈ l → RoomPtr.addr a ∈ l.take (insertPos heap a l)
  | [], _, h => by simp at h
  | x :: rest, hs, h => by
    have hs2 := List.pairwise_cons.mp hs
    rw [insertPos_cons]
    by_cases hlt : lastActivity heap x < (heap a).LastReceivedMessage
    · exfalso
      rcases List.mem_cons.mp h with h | h
      · rw [← h, lastActivity_addr] at hlt
        omega
      · have := hs2.1 _ h
        rw [lastActivity_addr] at this
        omega
    · rw [if_neg hlt, List.take_succ_cons]
      rcases List.mem_cons.mp h with h | h
      · rw [h]; exact List.mem_cons_self _ _
      · exact List.mem_cons_of_mem _ (mem_take_insertPos_of_sorted heap a rest hs2.2 h)

theorem sorted_insert (heap : Heap) (a : Nat) : ∀ (l : List RoomPtr),
    SortedByActivity heap l →
    SortedByActivity heap
      (l.take (insertPos heap a l) ++ RoomPtr.addr a :: l.drop (insertPos heap a l))
  | [], _ => by simp [SortedByActivity, insertPos]
  | x :: rest, hs => by
    have hs2 := List.pairwise_cons.mp hs
    rw [insertPos_cons]
    by_cases hlt : lastActivity heap x < (heap a).LastReceivedMessage
    · rw [if_pos hlt]
      simp only [List.take_zero, List.drop_zero, List.nil_append]
      refine List.pairwise_cons.mpr ⟨?_, hs⟩
      intro y hy
      rcases List.mem_cons.mp hy with hy | hy
      · rw [hy, lastActivity_addr]; omega
      · have := hs2.1 _ hy
        rw [lastActivity_addr]
        omega
    · rw [if_neg hlt]
      simp only [List.take_succ_cons, List.drop_succ_cons, List.cons_append]
      refine List.pairwise_cons.mpr ⟨?_, sorted_insert heap a rest hs2.2⟩
      intro y hy
      rcases List.mem_append.mp hy with hy | hy
      · exact hs2.1 _ (List.mem_of_mem_take hy)
      · rcases List.mem_cons.mp hy with hy | hy
        · rw [hy, lastActivity_addr]; omega
        · exact hs2.1 _ (List.mem_of_mem_drop hy)

theorem Add_ok (heap : Heap) (rstr : RosterView) (a : Nat) (h : RosterOk heap rstr.rooms) :
    ∃ r, rstr.Add heap (.addr a) = some r ∧ RosterOk heap r.rooms := by
  obtain ⟨hn, hs, hd⟩ := h
  by_cases hr : (heap a).replaced = true
  · exact ⟨rstr, Add_replaced heap rstr a hr, hn, hs, hd⟩
  · by_cases hm : RoomPtr.addr a ∈ rstr.rooms
    · exact ⟨rstr, Add_eq_self heap rstr a hn (mem_take_insertPos_of_sorted heap a _ hs hm),
        hn, hs, hd⟩
    · have hnt : RoomPtr.addr a ∉ rstr.rooms.take (insertPos heap a rstr.rooms) :=
        fun h => hm (List.mem_of_mem_take h)
      refine ⟨_, Add_eq_insert heap rstr a hn (by simpa using hr) hnt, ?_, ?_, ?_⟩
      · intro h
        rcases List.mem_append.mp h with h | h
        · exact hn (List.mem_of_mem_take h)
        · rcases List.mem_cons.mp h with h | h
          · exact RoomPtr.noConfusion h
          · exact hn (List.mem_of_mem_drop h)
      · exact sorted_insert heap a _ hs
      · have hperm : (rstr.rooms.take (insertPos heap a rstr.rooms) ++
            RoomPtr.addr a :: rstr.rooms.drop (insertPos heap a rstr.rooms)).Perm
            (RoomPtr.addr a :: rstr.rooms) := by
          refine List.perm_middle.trans (List.Perm.cons _ ?_)
          rw [List.take_append_drop]
        exact hperm.nodup_iff.mpr (List.nodup_cons.mpr ⟨hm, hd⟩)

theorem Remove_ok (heap : Heap) (rstr : RosterView) (room : RoomPtr)
    (h : RosterOk heap rstr.rooms) :
    ∃ r, rstr.Remove room = some r ∧ RosterOk heap r.rooms := by
  obtain ⟨hn, hs, hd⟩ := h
  refine ⟨_, Remove_eq rstr room, ?_, ?_, ?_⟩
  · exact fun h => hn (List.mem_of_mem_erase h)
  · exact List.Pairwise.sublist (List.erase_sublist _ _) hs
  · exact hd.erase _

theorem Bump_ok (heap : Heap) (rstr : RosterView) (a : Nat) (h : RosterOk heap rstr.rooms) :
    ∃ r, rstr.Bump heap (.addr a) = some r ∧ RosterOk heap r.rooms := by
  obtain ⟨r1, h1, ok1⟩ := Remove_ok heap rstr (.addr a) h
  obtain ⟨r2, h2, ok2⟩ := Add_ok heap r1 a ok1
  exact ⟨r2, by simp [Bump, h1, h2], ok2⟩

theorem run_ok (heap : Heap) : ∀ (calls : List RosterCall) (rstr : RosterView),
    RosterOk heap rstr.rooms → ∃ r, rstr.run heap calls = some r ∧ RosterOk heap r.rooms
  | [], rstr, h => ⟨rstr, rfl, h⟩
  | c :: cs, rstr, h => by
    have step : ∃ r, rstr.call heap c = some r ∧ RosterOk heap r.rooms := by
      cases c with
      | Add a => exact Add_ok heap rstr a h
      | Remove a => exact Remove_ok heap rstr _ h
      | Bump a => exact Bump_ok heap rstr a h
    obtain ⟨r1, h1, ok1⟩ := step
    obtain ⟨r2, h2, ok2⟩ := run_ok heap cs r1 ok1
    exact ⟨r2, by simp [run, h1, h2], ok2⟩

/-- C1. Starting from the empty roster of `NewRosterView`, every finite sequence of `Add`,
`Remove` and `Bump` calls on rooms whose timestamps do not change runs to completion, and
the roster it leaves holds no nil entry, is ordered non-increasing by `LastReceivedMessage`
(for every pair of positions, hence for every adjacent pair) and holds no entry twice.
This holds whether or not the rooms are tombstoned. -/
theorem roster_sorted_nodup_after_calls (heap : Heap) (calls : List RosterCall) :
    ∃ rstr, NewRosterView.run heap calls = some rstr ∧
      NoNil rstr.rooms ∧
      SortedByActivity heap rstr.rooms ∧
      rstr.rooms.Chain' (fun x y => lastActivity heap x ≥ lastActivity heap y) ∧
      rstr.rooms.Nodup := by
  obtain ⟨r, hr, hn, hs, hd⟩ := run_ok heap calls NewRosterView
    ⟨by simp [NoNil, NewRosterView], by simp [SortedByActivity, NewRosterView],
      by simp [NewRosterView]⟩
  exact ⟨r, hr, hn, hs, List.Pairwise.chain' hs, hd⟩

/-! ## Insertion, removal and repositioning -/

theorem erase_insertAtPos (l : List RoomPtr) (p : Nat) (room : RoomPtr) (h : room ∉ l) :
    (insertAtPos l p room).erase room = l := by
  unfold insertAtPos
  rw [List.erase_append_right _ (fun hm => h (List.mem_of_mem_take hm)), List.erase_cons_head,
    List.take_append_drop]

theorem insertPos_spec (heap : Heap) (a : Nat) : ∀ (l : List RoomPtr),
    (∀ x ∈ l.take (insertPos heap a l), (heap a).LastReceivedMessage ≤ lastActivity heap x) ∧
    (∀ x, (l.drop (insertPos heap a l)).head? = some x →
      lastActivity heap x < (heap a).LastReceivedMessage)
  | [] => by simp [insertPos]
  | y :: rest => by
    rw [insertPos_cons]
    by_cases hlt : lastActivity heap y < (heap a).LastReceivedMessage
    · rw [if_pos hlt]
      refine ⟨by simp, ?_⟩
      intro x hx
      simp only [List.drop_zero, List.head?_cons, Option.some.injEq] at hx
      rw [← hx]; exact hlt
    · rw [if_neg hlt]
      obtain ⟨ih1, ih2⟩ := insertPos_spec heap a rest
      refine ⟨?_, ?_⟩
      · intro x hx
        rw [List.take_succ_cons] at hx
        rcases List.mem_cons.mp hx with hx | hx
        · rw [hx]; omega
        · exact ih1 x hx
      · intro x hx
        rw [List.drop_succ_cons] at hx
        exact ih2 x hx

/-- C2 (counterexample). With a tie the code and the claim part ways: room 1 has the same
timestamp as room 0, the only entry of a sorted roster that does not hold room 1; the
position of the claim is 0 (room 0 is "not after" room 1), which would give [1, 0], and
`Add` returns [0, 1]. -/
theorem Add_tie_counterexample :
    SortedByActivity tieHeap tieRoster.rooms ∧
    (tieHeap 1).replaced = false ∧
    RoomPtr.addr 1 ∉ tieRoster.rooms ∧
    specInsertPos tieHeap 1 tieRoster.rooms = 0 ∧
    tieRoster.Add tieHeap (.addr 1) = some { tieRoster with rooms := [.addr 0, .addr 1] } ∧
    tieRoster.Add tieHeap (.addr 1) ≠
      some { tieRoster with
        rooms := insertAtPos tieRoster.rooms (specInsertPos tieHeap 1 tieRoster.rooms) (.addr 1) } := by
  decide

/-- C2 (amended). On a sorted roster without nil entries, `Add` of a room `a` that is not
tombstoned and not yet present places it immediately before the first entry whose timestamp
is strictly before that of `a`, and at the end when there is none: every entry in front of
the new one has a timestamp at or after that of `a` (an entry with the same timestamp stays
in front), the entry right behind it, if any, is strictly older, the result is sorted, and
removing the new entry gives back the old roster, so the other entries keep their order. -/
theorem Add_inserts_before_first_older (heap : Heap) (rstr : RosterView) (a : Nat)
    (hn : NoNil rstr.rooms) (hs : SortedByActivity heap rstr.rooms)
    (hr : (heap a).replaced = false) (hm : RoomPtr.addr a ∉ rstr.rooms) :
    rstr.Add heap (.addr a) = some { rstr with
      rooms := insertAtPos rstr.rooms (insertPos heap a rstr.rooms) (.addr a) } ∧
    insertPos heap a rstr.rooms ≤ rstr.rooms.length ∧
    (∀ x ∈ rstr.rooms.take (insertPos heap a rstr.rooms),
      (heap a).LastReceivedMessage ≤ lastActivity heap x) ∧
    (∀ x, (rstr.rooms.drop (insertPos heap a rstr.rooms)).head? = some x →
      lastActivity heap x < (heap a).LastReceivedMessage) ∧
    SortedByActivity heap (insertAtPos rstr.rooms (insertPos heap a rstr.rooms) (.addr a)) ∧
    (insertAtPos rstr.rooms (insertPos heap a rstr.rooms) (.addr a)).erase (.addr a)
      = rstr.rooms := by
  refine ⟨?_, insertPos_le heap a _, (insertPos_spec heap a _).1, (insertPos_spec heap a _).2,
    sorted_insert heap a _ hs, erase_insertAtPos _ _ _ hm⟩
  exact Add_eq_insert heap rstr a hn hr (fun h => hm (List.mem_of_mem_take h))

/-- C2 (witness). The amended statement at the roster [A, B, C] and a new room 3 whose
timestamp 540 ties with B: the hypotheses hold and the room lands behind B. -/
theorem Add_inserts_before_first_older_witness :
    NoNil abcRoster.rooms ∧
    SortedByActivity (touch abcHeap 3 540) abcRoster.rooms ∧
    (touch abcHeap 3 540 3).replaced = false ∧
    RoomPtr.addr 3 ∉ abcRoster.rooms ∧
    abcRoster.Add (touch abcHeap 3 540) (.addr 3) =
      some { abcRoster with rooms := [.addr 0, .addr 1, .addr 3, .addr 2] } := by
  refine ⟨by decide, by decide, by decide, by decide, ?_⟩
  rw [(Add_inserts_before_first_older (touch abcHeap 3 540) abcRoster 3
    (by decide) (by decide) (by decide) (by decide)).1]
  decide

/-- C3 (the code at the failing input). Rooms 0 and 1 are added at minutes 540 and 480,
which gives the roster [0, 1]; a message then arrives in room 1 at minute 600.  Room 1 is
not tombstoned and is present in the roster, and `Add` of room 1 does not leave the roster
unchanged: the scan stops at room 0, which is now older, before it reaches the entry of
room 1, and the result [1, 0, 1] holds room 1 twice. -/
theorem Add_present_entry_duplicated :
    NewRosterView.run staleHeapBefore [.Add 0, .Add 1] = some staleRoster ∧
    RoomPtr.addr 1 ∈ staleRoster.rooms ∧
    staleRoster.Add (touch staleHeapBefore 1 600) (.addr 1) =
      some { staleRoster with rooms := [.addr 1, .addr 0, .addr 1] } ∧
    staleRoster.Add (touch staleHeapBefore 1 600) (.addr 1) ≠ some staleRoster := by
  decide

/-- C4. `Remove` always returns; it changes no field but the roster, which becomes the old
one with the first occurrence of `room` erased.  When `room` is not present nothing changes.
When it is present, at first position `i`, the new roster is the old one without position
`i`: it is one entry shorter, it is a sublist of the old roster, so the remaining entries
keep their order, and it no longer holds `room` if the old roster held no entry twice. -/
theorem Remove_deletes_first_occurrence (rstr : RosterView) (room : RoomPtr) :
    rstr.Remove room = some { rstr with rooms := rstr.rooms.erase room } ∧
    (room ∉ rstr.rooms → rstr.Remove room = some rstr) ∧
    (room ∈ rstr.rooms →
      rstr.index room = (rstr.rooms.indexOf room : Int) ∧
      rstr.rooms.indexOf room < rstr.rooms.length ∧
      rstr.rooms.erase room =
        rstr.rooms.take (rstr.rooms.indexOf room) ++ rstr.rooms.drop (rstr.rooms.indexOf room + 1) ∧
      (rstr.rooms.erase room).length + 1 = rstr.rooms.length ∧
      (rstr.rooms.Nodup → room ∉ rstr.rooms.erase room)) ∧
    (rstr.rooms.erase room).Sublist rstr.rooms := by
  refine ⟨Remove_eq rstr room, ?_, ?_, List.erase_sublist _ _⟩
  · intro h
    rw [Remove_eq, List.erase_of_not_mem h]
  · intro h
    have hlt : rstr.rooms.indexOf room < rstr.rooms.length := List.indexOf_lt_length.mpr h
    refine ⟨by rw [index_eq, if_pos h], hlt, ?_, ?_, ?_⟩
    · rw [← List.eraseIdx_indexOf_eq_erase, List.eraseIdx_eq_take_drop_succ]
    · rw [List.length_erase_of_mem h]
      have : 0 < rstr.rooms.length := List.length_pos_of_mem h
      omega
    · intro hd hmem
      exact ((List.Nodup.mem_erase_iff hd).mp hmem).1 rfl

/-- C4 (witness). Removing B from [A, B, C] leaves [A, C]; removing a room that is not in
the roster leaves [A, B, C]. -/
theorem Remove_deletes_first_occurrence_witness :
    abcRoster.Remove (.addr 1) = some { abcRoster with rooms := [.addr 0, .addr 2] } ∧
    abcRoster.Remove (.addr 7) = some abcRoster := by
  refine ⟨?_, (Remove_deletes_first_occurrence abcRoster (.addr 7)).2.1 (by decide)⟩
  rw [(Remove_deletes_first_occurrence abcRoster (.addr 1)).1]
  decide

/-- C5. On a roster without nil entries that holds no entry twice and in which the entries
other than room `a` are sorted, for a room `a` that is present and not tombstoned, whatever
its position and its present timestamp: `Bump` returns exactly what `Add` returns on the
roster with `a` erased; the result is sorted, holds `a` exactly once, at the position `Add`
chooses, and erasing `a` from it gives the old roster with `a` erased, so the other entries
keep their order.  In particular on [A(10:00), B(09:00), C(08:00)], `Bump` of C after its
timestamp became 11:00 gives [C, A, B]. -/
theorem Bump_eq_Add_after_erase :
    (∀ (heap : Heap) (rstr : RosterView) (a : Nat),
      NoNil rstr.rooms → rstr.rooms.Nodup →
      SortedByActivity heap (rstr.rooms.erase (.addr a)) →
      (heap a).replaced = false → RoomPtr.addr a ∈ rstr.rooms →
      rstr.Bump heap (.addr a)
        = RosterView.Add heap { rstr with rooms := rstr.rooms.erase (.addr a) } (.addr a) ∧
      ∃ r, rstr.Bump heap (.addr a) = some r ∧
        r = { rstr with
          rooms := insertAtPos (rstr.rooms.erase (.addr a))
            (insertPos heap a (rstr.rooms.erase (.addr a))) (.addr a) } ∧
        SortedByActivity heap r.rooms ∧
        r.rooms.count (.addr a) = 1 ∧
        r.rooms.erase (.addr a) = rstr.rooms.erase (.addr a)) ∧
    abcRoster.Bump (touch abcHeap 2 660) (.addr 2) =
      some { abcRoster with rooms := [.addr 2, .addr 0, .addr 1] } := by
  refine ⟨?_, by decide⟩
  intro heap rstr a hn hd hs hr hm
  have hne : RoomPtr.addr a ∉ rstr.rooms.erase (.addr a) :=
    fun h => ((List.Nodup.mem_erase_iff hd).mp h).1 rfl
  have hn2 : NoNil (rstr.rooms.erase (.addr a)) := fun h => hn (List.mem_of_mem_erase h)
  have hB : rstr.Bump heap (.addr a)
      = RosterView.Add heap { rstr with rooms := rstr.rooms.erase (.addr a) } (.addr a) := by
    simp [Bump, Remove_eq]
  have hA := Add_eq_insert heap { rstr with rooms := rstr.rooms.erase (.addr a) } a hn2 hr
    (fun h => hne (List.mem_of_mem_take h))
  refine ⟨hB, _, hB.trans hA, rfl, sorted_insert heap a _ hs, ?_, erase_insertAtPos _ _ _ hne⟩
  show (insertAtPos _ _ _).count _ = 1
  unfold insertAtPos
  rw [List.count_append, List.count_cons_self,
    List.count_eq_zero_of_not_mem (fun h => hne (List.mem_of_mem_take h)),
    List.count_eq_zero_of_not_mem (fun h => hne (List.mem_of_mem_drop h))]

/-- C5 (witness). The general statement at the scenario of the specification: the roster
[A, B, C] after the timestamp of C became 11:00 meets the hypotheses, and `Bump` of C
gives [C, A, B]. -/
theorem Bump_eq_Add_after_erase_witness :
    NoNil abcRoster.rooms ∧ abcRoster.rooms.Nodup ∧
    SortedByActivity (touch abcHeap 2 660) (abcRoster.rooms.erase (.addr 2)) ∧
    (touch abcHeap 2 660 2).replaced = false ∧ RoomPtr.addr 2 ∈ abcRoster.rooms ∧
    ∃ r, abcRoster.Bump (touch abcHeap 2 660) (.addr 2) = some r ∧
      r.rooms = [.addr 2, .addr 0, .addr 1] := by
  refine ⟨by decide, by decide, by decide, by decide, by decide, ?_⟩
  obtain ⟨r, h1, h2, -⟩ := (Bump_eq_Add_after_erase.1 (touch abcHeap 2 660) abcRoster 2
    (by decide) (by decide) (by decide) (by decide) (by decide)).2
  refine ⟨r, h1, ?_⟩
  rw [h2]
  decide

/-! ## Scroll arithmetic -/

theorem wrapInt_eq_self (x : Int) (h1 : minInt ≤ x) (h2 : x ≤ maxInt) : wrapInt x = x := by
  unfold wrapInt
  unfold minInt at h1
  unfold maxInt at h2
  omega

theorem tdiv_two (x : Int) : Int.tdiv x 2 = if 0 ≤ x then x / 2 else -((-x) / 2) := by
  split
  · rename_i h
    exact Int.tdiv_eq_ediv h (by decide)
  · rename_i h
    have : x = -(-x) := by omega
    rw [this, Int.neg_tdiv, Int.tdiv_eq_ediv (by omega) (by decide)]
    simp

theorem specRoomsOnScreen_eq (h : Int) : specRoomsOnScreen h = (h - 3) / 2 := by
  unfold specRoomsOnScreen
  have := Rat.floor_intCast_div_natCast (h - 3) 2
  push_cast at this
  exact this

/-- C6 (counterexample). `0` and `2 ^ 62` are values of `int` with `0 <= 0 <= 2 ^ 62`, and
`VisualScrollHeight(0, 2 ^ 62)` is negative: the product `2 * 2 ^ 62` wraps around. -/
theorem VisualScrollHeight_overflow_counterexample :
    minInt ≤ (2 : Int) ^ 62 ∧ (2 : Int) ^ 62 ≤ maxInt ∧
    ¬ ((0 : Int) < 0 ∨ (0 : Int) > 2 ^ 62) ∧
    NewRosterView.VisualScrollHeight 0 (2 ^ 62) = -9223372036854775805 ∧
    NewRosterView.VisualScrollHeight 0 (2 ^ 62) < 0 ∧
    NewRosterView.VisualScrollHeight 0 (2 ^ 62) ≠ 3 + 2 * (2 ^ 62 - 0) := by
  decide

/-- C6 (amended). For all integers `start` and `end` whose difference `end - start` is at most
`2 ^ 62 - 2`, so that `3 + 2 * (end - start)` is a value of `int`: `VisualScrollHeight`
returns a negative value if and only if `start < 0` or `start > end` (it then returns `-1`),
and in every other case it returns exactly `3 + 2 * (end - start)`. -/
theorem VisualScrollHeight_spec (rstr : RosterView) (start end_ : Int)
    (hfit : end_ - start ≤ 2 ^ 62 - 2) :
    (rstr.VisualScrollHeight start end_ < 0 ↔ (start < 0 ∨ start > end_)) ∧
    ((start < 0 ∨ start > end_) → rstr.VisualScrollHeight start end_ = -1) ∧
    (¬ (start < 0 ∨ start > end_) →
      rstr.VisualScrollHeight start end_ = 3 + 2 * (end_ - start)) := by
  unfold VisualScrollHeight
  by_cases hc : start < 0 ∨ start > end_
  · simp [hc]
  · have h0 : 0 ≤ end_ - start := by omega
    have e1 : goSub end_ start = end_ - start :=
      wrapInt_eq_self _ (by unfold minInt; omega) (by unfold maxInt; omega)
    have e2 : goMul 2 (end_ - start) = 2 * (end_ - start) :=
      wrapInt_eq_self _ (by unfold minInt; omega) (by unfold maxInt; omega)
    have e3 : goAdd 3 (2 * (end_ - start)) = 3 + 2 * (end_ - start) :=
      wrapInt_eq_self _ (by unfold minInt; omega) (by unfold maxInt; omega)
    rw [if_neg hc, e1, e2, e3]
    refine ⟨⟨fun h => by omega, fun h => absurd h hc⟩, fun h => absurd h hc, fun _ => rfl⟩

/-- C6 (witness). The amended statement at `start = 2`, `end = 5`: the result is 9. -/
theorem VisualScrollHeight_spec_witness :
    (5 : Int) - 2 ≤ 2 ^ 62 - 2 ∧ NewRosterView.VisualScrollHeight 2 5 = 3 + 2 * (5 - 2) :=
  ⟨by decide, (VisualScrollHeight_spec NewRosterView 2 5 (by decide)).2.2 (by decide)⟩

/-- C7 (counterexample). Before the first `Draw` the height is 0 and `RoomsOnScreen()` is
`-1`, while the floor of `(0 - 3) / 2` is `-2`; at height 2 it is `0`, while the floor of
`(2 - 3) / 2` is `-1`. -/
theorem RoomsOnScreen_floor_counterexample :
    NewRosterView.height = 0 ∧
    NewRosterView.RoomsOnScreen = -1 ∧ specRoomsOnScreen 0 = -2 ∧
    RosterView.RoomsOnScreen { NewRosterView with height := 2 } = 0 ∧
    specRoomsOnScreen 2 = -1 := by
  refine ⟨rfl, by decide, ?_, by decide, ?_⟩
  · rw [specRoomsOnScreen_eq]; decide
  · rw [specRoomsOnScreen_eq]; decide

/-- C7 (amended). For every viewport height `h` that is a value of `int` with `h - 3` also
one, `RoomsOnScreen()` is the quotient of `h - 3` by 2 truncated toward zero; it equals the
floor of `(h - 3) / 2` when `h >= 3` or `h` is odd, and is one more than that floor when
`h < 3` and `h` is even.  `IndexOfLastVisibleRoom()` equals `scrollOffset + RoomsOnScreen()` whenever that sum
is a value of `int`. -/
theorem RoomsOnScreen_spec (rstr : RosterView)
    (hlo : minInt + 3 ≤ rstr.height) (hhi : rstr.height ≤ maxInt) :
    rstr.RoomsOnScreen = Int.tdiv (rstr.height - 3) 2 ∧
    (3 ≤ rstr.height ∨ rstr.height % 2 = 1 →
      rstr.RoomsOnScreen = specRoomsOnScreen rstr.height) ∧
    (rstr.height < 3 → rstr.height % 2 = 0 →
      rstr.RoomsOnScreen = specRoomsOnScreen rstr.height + 1) ∧
    (minInt ≤ rstr.scrollOffset + rstr.RoomsOnScreen →
      rstr.scrollOffset + rstr.RoomsOnScreen ≤ maxInt →
      rstr.IndexOfLastVisibleRoom = rstr.scrollOffset + rstr.RoomsOnScreen) := by
  have e1 : goSub rstr.height 3 = rstr.height - 3 :=
    wrapInt_eq_self _ (by unfold minInt at *; omega) (by unfold maxInt at *; omega)
  have e2 : rstr.RoomsOnScreen = Int.tdiv (rstr.height - 3) 2 := by
    unfold RoomsOnScreen goDiv
    rw [e1]
    apply wrapInt_eq_self
    · rw [tdiv_two]; unfold minInt at *; unfold maxInt at hhi; split <;> omega
    · rw [tdiv_two]; unfold minInt at hlo; unfold maxInt at *; split <;> omega
  refine ⟨e2, ?_, ?_, ?_⟩
  · intro h3
    rw [e2, specRoomsOnScreen_eq, tdiv_two]
    split <;> omega
  · intro h3 hev
    rw [e2, specRoomsOnScreen_eq, tdiv_two, if_neg (by omega)]
    omega
  · intro h1 h2
    exact wrapInt_eq_self _ h1 h2

/-- C7 (witness). The amended statement at height 7 and scroll offset 0: two rooms. -/
theorem RoomsOnScreen_spec_witness :
    minInt + 3 ≤ fiveRooms.height ∧ fiveRooms.height ≤ maxInt ∧
    fiveRooms.RoomsOnScreen = Int.tdiv (7 - 3) 2 :=
  ⟨by decide, by decide, (RoomsOnScreen_spec fiveRooms (by decide) (by decide)).1⟩

/-! ## Navigation -/

theorem elemAt_natCast (l : List RoomPtr) (n : Nat) : elemAt l (n : Int) = l[n]? := by
  unfold elemAt
  rw [if_pos (by omega)]
  simp

/-- C8. On a non-empty roster, when the lookup of the selected entry finds nothing (no room
is selected, or the selected room is no longer in the roster), `ScrollNext` returns, selects
the first entry of the roster and sets `scrollOffset` to 0 whatever it was; the roster and
the other fields are unchanged. -/
theorem ScrollNext_selects_first (rstr : RosterView) (hne : rstr.rooms ≠ [])
    (hidx : rstr.index rstr.selected = -1) :
    ∃ first, rstr.rooms[0]? = some first ∧
      rstr.ScrollNext = some { rstr with selected := first, scrollOffset := 0 } := by
  obtain ⟨first, rest, hl⟩ := List.exists_cons_of_ne_nil hne
  refine ⟨first, by rw [hl]; simp, ?_⟩
  unfold ScrollNext
  simp only [hidx, if_true, First]
  have : elemAt rstr.rooms 0 = some first := by
    rw [show (0 : Int) = ((0 : Nat) : Int) from rfl, elemAt_natCast, hl]; simp
  rw [this]
  rfl

/-- C8 (witness). In [A, B, C] with the stale selection of room 9 and scroll offset 5,
`ScrollNext` selects A and resets the scroll offset. -/
theorem ScrollNext_selects_first_witness :
    RosterView.rooms { abcRoster with selected := .addr 9, scrollOffset := 5 } ≠ [] ∧
    RosterView.index { abcRoster with selected := .addr 9, scrollOffset := 5 } (.addr 9) = -1 ∧
    ∃ first, abcRoster.rooms[0]? = some first ∧
      RosterView.ScrollNext { abcRoster with selected := .addr 9, scrollOffset := 5 } =
        some { abcRoster with selected := first, scrollOffset := 0 } :=
  ⟨by decide, by decide,
    ScrollNext_selects_first { abcRoster with selected := .addr 9, scrollOffset := 5 }
      (by decide) (by decide)⟩

/-- C9. When the lookup finds the selected entry at index `i` (and `scrollOffset` is a value
of `int` other than the largest one): if `i` is the last index `ScrollNext` changes nothing;
otherwise it selects the entry at index `i + 1`, and `scrollOffset` grows by exactly 1 when
`VisualScrollHeight(scrollOffset, (i + 1) + 1) >= height` and is unchanged otherwise.  In
both cases `ScrollNext` returns and `scrollOffset` changes by 0 or by exactly 1. -/
theorem ScrollNext_from_selection (rstr : RosterView) (i : Nat)
    (hidx : rstr.index rstr.selected = (i : Int))
    (hlo : minInt ≤ rstr.scrollOffset) (hhi : rstr.scrollOffset < maxInt) :
    i < rstr.rooms.length ∧
    (i + 1 = rstr.rooms.length → rstr.ScrollNext = some rstr) ∧
    (i + 1 < rstr.rooms.length → ∃ next, rstr.rooms[i + 1]? = some next ∧
      rstr.ScrollNext = some { rstr with
        selected := next
        scrollOffset :=
          if rstr.VisualScrollHeight rstr.scrollOffset (((i : Int) + 1) + 1) ≥ rstr.height
          then rstr.scrollOffset + 1 else rstr.scrollOffset }) ∧
    (∃ r, rstr.ScrollNext = some r ∧
      (r.scrollOffset = rstr.scrollOffset ∨ r.scrollOffset = rstr.scrollOffset + 1)) := by
  have hlen : i < rstr.rooms.length := by
    rw [index_eq] at hidx
    split at hidx
    · rename_i hm
      have := List.indexOf_lt_length.mpr hm
      omega
    · omega
  have hinc : goAdd rstr.scrollOffset 1 = rstr.scrollOffset + 1 :=
    wrapInt_eq_self _ (by omega) (by omega)
  have hlast : i + 1 = rstr.rooms.length → rstr.ScrollNext = some rstr := by
    intro h
    unfold ScrollNext
    simp only [hidx]
    rw [if_neg (by omega), if_neg (by omega)]
  have hnext : i + 1 < rstr.rooms.length → ∃ next, rstr.rooms[i + 1]? = some next ∧
      rstr.ScrollNext = some { rstr with
        selected := next
        scrollOffset :=
          if rstr.VisualScrollHeight rstr.scrollOffset (((i : Int) + 1) + 1) ≥ rstr.height
          then rstr.scrollOffset + 1 else rstr.scrollOffset } := by
    intro h
    refine ⟨rstr.rooms[i + 1], List.getElem?_eq_getElem h, ?_⟩
    unfold ScrollNext
    simp only [hidx]
    rw [if_neg (by omega), if_pos (by omega),
      show ((i : Int) + 1) = ((i + 1 : Nat) : Int) by push_cast; rfl, elemAt_natCast,
      List.getElem?_eq_getElem h,
      show ((i + 1 : Nat) : Int) + 1 = (i : Int) + 2 by push_cast; ring, hinc]
    simp only [Option.map_some']
    split <;> rfl
  refine ⟨hlen, hlast, hnext, ?_⟩
  by_cases h : i + 1 = rstr.rooms.length
  · exact ⟨rstr, hlast h, Or.inl rfl⟩
  · obtain ⟨next, -, hn⟩ := hnext (by omega)
    refine ⟨_, hn, ?_⟩
    dsimp only
    split
    · exact Or.inr rfl
    · exact Or.inl rfl

/-- C9 (witness). Five rooms, height 7, room 1 selected at index 1, scroll offset 1:
`VisualScrollHeight(1, 3) = 7 >= 7`, so `ScrollNext` selects room 2 and the scroll offset
becomes 2. -/
theorem ScrollNext_from_selection_witness :
    RosterView.index { fiveRooms with selected := .addr 1, scrollOffset := 1 } (.addr 1)
      = ((1 : Nat) : Int) ∧
    minInt ≤ (1 : Int) ∧ (1 : Int) < maxInt ∧
    RosterView.ScrollNext { fiveRooms with selected := .addr 1, scrollOffset := 1 } =
      some { fiveRooms with selected := .addr 2, scrollOffset := 2 } := by
  refine ⟨by decide, by decide, by decide, ?_⟩
  obtain ⟨next, h1, h2⟩ :=
    (ScrollNext_from_selection { fiveRooms with selected := .addr 1, scrollOffset := 1 } 1
      (by decide) (by decide) (by decide)).2.2.1 (by decide)
  rw [h2]
  have : next = .addr 2 := by
    have h3 : (some (RoomPtr.addr 2)) = some next := h1
    exact (Option.some.inj h3).symm
  subst this
  decide

/-- C10 (counterexample). Five rooms, height 7, nothing selected, scroll offset 0: after the
second `ScrollNext` the scroll offset is 1, not 0, and after the third it is 2, not 1. -/
theorem ScrollNext_scenario_counterexample :
    ((fiveRooms.ScrollNext.bind ScrollNext).map fun r => r.scrollOffset) = some 1 ∧
    ((fiveRooms.ScrollNext.bind ScrollNext).map fun r => r.scrollOffset) ≠ some 0 ∧
    (((fiveRooms.ScrollNext.bind ScrollNext).bind ScrollNext).map fun r => r.scrollOffset)
      = some 2 ∧
    (((fiveRooms.ScrollNext.bind ScrollNext).bind ScrollNext).map fun r => r.scrollOffset)
      ≠ some 1 := by
  decide

/-- C10 (amended). With viewport height 7, `RoomsOnScreen()` is 2; on a roster of 5 entries
with no selection and scroll offset 0, the first `ScrollNext` selects entry 0 and leaves the
scroll offset at 0, the second selects entry 1 and makes the scroll offset 1
(`VisualScrollHeight(0, 2) = 7 >= 7`), and the third selects entry 2 and makes it 2. -/
theorem ScrollNext_scenario :
    fiveRooms.RoomsOnScreen = 2 ∧
    fiveRooms.VisualScrollHeight 0 2 = 7 ∧
    fiveRooms.ScrollNext = some { fiveRooms with selected := .addr 0, scrollOffset := 0 } ∧
    fiveRooms.ScrollNext.bind ScrollNext =
      some { fiveRooms with selected := .addr 1, scrollOffset := 1 } ∧
    (fiveRooms.ScrollNext.bind ScrollNext).bind ScrollNext =
      some { fiveRooms with selected := .addr 2, scrollOffset := 2 } := by
  decide

/-! ## Stepping back, keys and clicks -/

/-- C11. With `scrollOffset` a value of `int`: when the lookup of the selected entry gives
`-1` (nothing selected, or a selection no longer in the roster) or index 0, `ScrollPrev`
returns the state unchanged; when it gives an index `i > 0`, `ScrollPrev` selects the entry
at index `i - 1`, and `scrollOffset` drops by exactly 1 when `i == scrollOffset` and is
unchanged otherwise; nothing else changes. -/
theorem ScrollPrev_spec (rstr : RosterView) (hhi : rstr.scrollOffset ≤ maxInt) :
    (rstr.index rstr.selected ≤ 0 → rstr.ScrollPrev = some rstr) ∧
    (∀ i : Nat, 0 < i → rstr.index rstr.selected = (i : Int) →
      ∃ prev, rstr.rooms[i - 1]? = some prev ∧
        rstr.ScrollPrev = some { rstr with
          selected := prev
          scrollOffset :=
            if (i : Int) = rstr.scrollOffset then rstr.scrollOffset - 1
            else rstr.scrollOffset }) := by
  constructor
  · intro h
    unfold ScrollPrev
    simp only []
    rw [if_neg (by omega)]
  · intro i hi hidx
    have hlen : i < rstr.rooms.length := by
      rw [index_eq] at hidx
      split at hidx
      · rename_i hm
        have := List.indexOf_lt_length.mpr hm
        omega
      · omega
    have hlt : i - 1 < rstr.rooms.length := by omega
    refine ⟨rstr.rooms[i - 1], List.getElem?_eq_getElem hlt, ?_⟩
    unfold ScrollPrev
    simp only [hidx]
    rw [if_pos (by omega), show ((i : Int) - 1) = ((i - 1 : Nat) : Int) by omega,
      elemAt_natCast, List.getElem?_eq_getElem hlt]
    simp only [Option.map_some']
    by_cases hso : (i : Int) = rstr.scrollOffset
    · have hdec : goSub rstr.scrollOffset 1 = rstr.scrollOffset - 1 :=
        wrapInt_eq_self _ (by unfold minInt; omega) (by omega)
      rw [if_pos hso, if_pos hso, hdec]
    · rw [if_neg hso, if_neg hso]

/-- C11 (witness). Five rooms, room 2 selected at index 2, scroll offset 2: `ScrollPrev`
selects room 1 and the scroll offset becomes 1. -/
theorem ScrollPrev_spec_witness :
    (2 : Int) ≤ maxInt ∧
    RosterView.index { fiveRooms with selected := .addr 2, scrollOffset := 2 } (.addr 2)
      = ((2 : Nat) : Int) ∧
    RosterView.ScrollPrev { fiveRooms with selected := .addr 2, scrollOffset := 2 } =
      some { fiveRooms with selected := .addr 1, scrollOffset := 1 } := by
  refine ⟨by decide, by decide, ?_⟩
  obtain ⟨prev, h1, h2⟩ :=
    (ScrollPrev_spec { fiveRooms with selected := .addr 2, scrollOffset := 2 }
      (by decide)).2 2 (by decide) (by decide)
  rw [h2]
  have : prev = .addr 1 := by
    have h3 : (some (RoomPtr.addr 1)) = some prev := h1
    exact (Option.some.inj h3).symm
  subst this
  decide

/-- C12. In an unfocused state, a click of the primary button without motion at a row `y`
with `y <= 3` or `y > VisualScrollHeight(scrollOffset, IndexOfLastVisibleRoom())` returns
`false` and leaves every field of the panel as it was. -/
theorem OnMouseEvent_rejects_outside (parent : MainView) (rstr : RosterView)
    (event : MouseEvent) (hf : rstr.focused = false) (hm : event.hasMotion = false)
    (hb : event.buttons = Buttons.Button1)
    (hy : event.y ≤ 3 ∨
      event.y > rstr.VisualScrollHeight rstr.scrollOffset rstr.IndexOfLastVisibleRoom) :
    rstr.OnMouseEvent parent event = some (rstr, false) := by
  unfold OnMouseEvent delegate
  simp only [hf, hm, hb, Bool.false_eq_true, if_false]
  rw [if_pos hy]

/-- C12 (witness). Five rooms in a viewport of height 7: a click on row 3 (the separator)
and a click on row 8 (`VisualScrollHeight(0, 2) = 7`) are both rejected. -/
theorem OnMouseEvent_rejects_outside_witness :
    fiveRooms.focused = false ∧
    fiveRooms.VisualScrollHeight fiveRooms.scrollOffset fiveRooms.IndexOfLastVisibleRoom = 7 ∧
    fiveRooms.OnMouseEvent allViews
      { hasMotion := false, buttons := .Button1, y := 3, forwarded := true } =
      some (fiveRooms, false) ∧
    fiveRooms.OnMouseEvent allViews
      { hasMotion := false, buttons := .Button1, y := 8, forwarded := true } =
      some (fiveRooms, false) :=
  ⟨by decide, by decide,
    OnMouseEvent_rejects_outside allViews fiveRooms _ (by decide) rfl rfl (by decide),
    OnMouseEvent_rejects_outside allViews fiveRooms _ (by decide) rfl rfl (by decide)⟩

/-- C14 (the code at the failing input). Rooms A and B are added, the wheel selects A, and
A is removed: the roster is [B], the panel is not focused, and the lookup of the selection
gives `-1`.  In that state "enter" sets `focused` to true, on the removed room A, while
`ScrollNext` in the same state takes the selection as absent and selects B. -/
theorem enter_focuses_removed_room :
    NewRosterView.panelRun
      [.Add abcHeap 0, .Add abcHeap 1, .Mouse allViews wheelDown, .Remove 0] =
      some removedSelection ∧
    removedSelection.focused = false ∧
    removedSelection.index removedSelection.selected = -1 ∧
    removedSelection.OnKeyEvent allViews { command := "enter", forwarded := false } =
      some ({ removedSelection with focused := true }, true) ∧
    removedSelection.ScrollNext =
      some { removedSelection with selected := .addr 1, scrollOffset := 0 } ∧
    removedSelection.ScrollPrev = some removedSelection := by
  decide

/-- What "enter" does in an unfocused state: it returns `true` and sets `focused` to the
outcome of the test `rstr.selected != nil`; the roster is not consulted. -/
theorem enter_tests_nil_only (parent : MainView) (rstr : RosterView) (event : KeyEvent)
    (hf : rstr.focused = false) (hc : event.command = "enter") :
    rstr.OnKeyEvent parent event =
      some ({ rstr with focused := decide (rstr.selected ≠ RoomPtr.nil) }, true) := by
  unfold OnKeyEvent keySwitch
  simp [hf, hc]

/-- C15 (the code at the failing input). On the empty roster of a new panel `ScrollNext`
does not complete: the lookup gives `-1`, and `First()` reads `rstr.rooms[0]` of an empty
slice.  The same happens through the "next_room" key and the wheel.  `ScrollPrev` completes
and changes nothing. -/
theorem ScrollNext_empty_roster_faults :
    NewRosterView.rooms = [] ∧
    NewRosterView.index NewRosterView.selected = -1 ∧
    NewRosterView.First = none ∧
    NewRosterView.ScrollNext = none ∧
    NewRosterView.OnKeyEvent allViews { command := "next_room", forwarded := false } = none ∧
    NewRosterView.OnMouseEvent allViews
      { hasMotion := false, buttons := .WheelDown, y := 0, forwarded := false } = none ∧
    NewRosterView.ScrollPrev = some NewRosterView := by
  decide

/-- C17. A key that resolves to "clear" is consumed and leaves the panel with no selection
and `focused = false`, the roster and `scrollOffset` unchanged, whether the panel was
focused or not: the result is the old state with `selected` nil and `focused` false.  In an unfocused state a key that resolves to a
command other than "next_room", "prev_room", "clear", "quit" and "enter" changes nothing
and is not consumed. -/
theorem clear_and_unbound_keys (parent : MainView) (rstr : RosterView) (event : KeyEvent) :
    (event.command = "clear" →
      rstr.OnKeyEvent parent event =
        some ({ rstr with selected := RoomPtr.nil, focused := false }, true)) ∧
    (rstr.focused = false →
      event.command ∉ ["next_room", "prev_room", "clear", "quit", "enter"] →
      rstr.OnKeyEvent parent event = some (rstr, false)) := by
  constructor
  · intro hc
    unfold OnKeyEvent keySwitch
    by_cases hf : rstr.focused = true
    · simp [hf, hc]
    · have hf2 : rstr.focused = false := by simpa using hf
      simp [hf2, hc]
  · intro hf hc
    simp only [List.mem_cons, List.mem_singleton, List.not_mem_nil, or_false, not_or] at hc
    unfold OnKeyEvent keySwitch
    simp [hf, hc]

/-- C17 (witness). The focused panel with room 1 selected, after "clear": nothing is
selected and the panel is not focused.  The unfocused panel ignores the unbound command
"search". -/
theorem clear_and_unbound_keys_witness :
    RosterView.OnKeyEvent allViews { staleRoster with selected := .addr 1, focused := true }
      { command := "clear", forwarded := true } = some (staleRoster, true) ∧
    staleRoster.OnKeyEvent allViews { command := "search", forwarded := true } =
      some (staleRoster, false) := by
  refine ⟨?_, (clear_and_unbound_keys allViews staleRoster
    { command := "search", forwarded := true }).2 rfl (by decide)⟩
  rw [(clear_and_unbound_keys allViews { staleRoster with selected := .addr 1, focused := true }
    { command := "clear", forwarded := true }).1 rfl]
  rfl

/-! ## Clicks against what is drawn, and the scroll offset after removals -/

/-- C13 (the code at the failing input). Rooms A, B and C are added, then the tombstone of
A arrives.  `Draw` on a screen of height 9 skips A and paints B on rows 4 and 5 and C on
rows 6 and 7.  A click on row 4 is not rejected, computes index `0 + 4/2 - 2 = 0`, and
selects and focuses the entry at index 0, which is A: not the room painted over row 4. -/
theorem click_selects_hidden_tombstoned_room :
    NewRosterView.run abcHeap [.Add 0, .Add 1, .Add 2] = some abcRoster ∧
    (tombstone abcHeap 0 0).replaced = true ∧
    RosterView.Draw (tombstone abcHeap 0) allViews abcRoster 80 9 =
      some ({ abcRoster with width := 80, height := 9 },
        [(4, RoomPtr.addr 1), (6, RoomPtr.addr 2)]) ∧
    RosterView.OnMouseEvent allViews { abcRoster with width := 80, height := 9 }
      { hasMotion := false, buttons := .Button1, y := 4, forwarded := false } =
      some ({ abcRoster with width := 80, height := 9, selected := .addr 0, focused := true },
        true) := by
  decide

/-- C16 (the code at the failing input). A new panel, rooms A, B and C added, three
`ScrollNext` calls (the scroll offset goes 0, 1, 2), then `Remove` of C and of B: the roster
is [A] and `scrollOffset` is still 2, which is not an index into it, and the next `Draw`
fails on `rstr.rooms[rstr.scrollOffset:]`. -/
theorem Remove_leaves_scrollOffset_past_end :
    NewRosterView.panelRun
      [.Add abcHeap 0, .Add abcHeap 1, .Add abcHeap 2,
       .Mouse allViews { hasMotion := false, buttons := .WheelDown, y := 0, forwarded := false },
       .Mouse allViews { hasMotion := false, buttons := .WheelDown, y := 0, forwarded := false },
       .Mouse allViews { hasMotion := false, buttons := .WheelDown, y := 0, forwarded := false },
       .Remove 2, .Remove 1] =
      some { NewRosterView with rooms := [.addr 0], selected := .addr 2, scrollOffset := 2 } ∧
    ((abcRoster.navigate [.next, .next, .next]).bind fun r =>
      (r.Remove (.addr 2)).bind fun r1 => r1.Remove (.addr 1)) =
      some { NewRosterView with rooms := [.addr 0], selected := .addr 2, scrollOffset := 2 } ∧
    RosterView.Draw abcHeap allViews
      { NewRosterView with rooms := [.addr 0], selected := .addr 2, scrollOffset := 2 } 80 24
      = none := by
  refine ⟨?_, by decide, by decide⟩
  set_option maxRecDepth 4000 in decide

/-- C18 (the code at the failing input). Roster [A, B, C]; one caller runs `Remove(B)` and
another `Remove(A)`.  The first caller looks B up (index 1) and releases the lock; the
second caller runs its whole `Remove(A)`, leaving [B, C]; the first caller then passes the
guard and deletes index 1 under the lock.  The final roster is [B]: C is gone although
nobody removed it and B is still there, while both serial orders of the two calls give
[C]. -/
theorem Remove_interleaving_removes_wrong_entry :
    abcRoster.index (.addr 1) = 1 ∧
    abcRoster.Remove (.addr 1) = abcRoster.removeAfterLookup (abcRoster.index (.addr 1)) ∧
    abcRoster.Remove (.addr 0) = some { abcRoster with rooms := [.addr 1, .addr 2] } ∧
    ((abcRoster.Remove (.addr 0)).bind fun r =>
      r.removeAfterLookup (abcRoster.index (.addr 1))) =
      some { abcRoster with rooms := [.addr 1] } ∧
    ((abcRoster.Remove (.addr 0)).bind fun r => r.Remove (.addr 1)) =
      some { abcRoster with rooms := [.addr 2] } ∧
    ((abcRoster.Remove (.addr 1)).bind fun r => r.Remove (.addr 0)) =
      some { abcRoster with rooms := [.addr 2] } := by
  decide

/-! ## Focus implies a selection -/

theorem elemAt_mem (l : List RoomPtr) (i : Int) (x : RoomPtr) (h : elemAt l i = some x) :
    x ∈ l := by
  unfold elemAt at h
  split at h
  · exact List.get?_mem h
  · exact absurd h (by simp)

theorem ne_nil_of_mem (l : List RoomPtr) (x : RoomPtr) (hn : NoNil l) (h : x ∈ l) :
    x ≠ RoomPtr.nil := fun e => hn (e ▸ h)

theorem Add_frame (heap : Heap) (rstr r : RosterView) (a : Nat) (hn : NoNil rstr.rooms)
    (h : rstr.Add heap (.addr a) = some r) :
    NoNil r.rooms ∧ r.selected = rstr.selected ∧ r.focused = rstr.focused := by
  by_cases hr : (heap a).replaced = true
  · rw [Add_replaced heap rstr a hr] at h
    cases h
    exact ⟨hn, rfl, rfl⟩
  · by_cases hm : RoomPtr.addr a ∈ rstr.rooms.take (insertPos heap a rstr.rooms)
    · rw [Add_eq_self heap rstr a hn hm] at h
      cases h
      exact ⟨hn, rfl, rfl⟩
    · rw [Add_eq_insert heap rstr a hn (by simpa using hr) hm] at h
      cases h
      refine ⟨?_, rfl, rfl⟩
      intro h
      rcases List.mem_append.mp h with h | h
      · exact hn (List.mem_of_mem_take h)
      · rcases List.mem_cons.mp h with h | h
        · exact RoomPtr.noConfusion h
        · exact hn (List.mem_of_mem_drop h)

theorem Remove_frame (rstr r : RosterView) (room : RoomPtr) (hn : NoNil rstr.rooms)
    (h : rstr.Remove room = some r) :
    NoNil r.rooms ∧ r.selected = rstr.selected ∧ r.focused = rstr.focused := by
  rw [Remove_eq] at h
  cases h
  exact ⟨fun h => hn (List.mem_of_mem_erase h), rfl, rfl⟩

theorem ScrollNext_frame (rstr r : RosterView) (h : rstr.ScrollNext = some r) :
    r.rooms = rstr.rooms ∧ r.focused = rstr.focused ∧
      (r.selected = rstr.selected ∨ r.selected ∈ rstr.rooms) := by
  unfold ScrollNext at h
  simp only [] at h
  split at h
  · obtain ⟨x, hx, rfl⟩ := Option.map_eq_some'.mp h
    exact ⟨rfl, rfl, Or.inr (elemAt_mem _ _ _ hx)⟩
  · split at h
    · obtain ⟨x, hx, rfl⟩ := Option.map_eq_some'.mp h
      split
      · exact ⟨rfl, rfl, Or.inr (elemAt_mem _ _ _ hx)⟩
      · exact ⟨rfl, rfl, Or.inr (elemAt_mem _ _ _ hx)⟩
    · cases h
      exact ⟨rfl, rfl, Or.inl rfl⟩

theorem ScrollPrev_frame (rstr r : RosterView) (h : rstr.ScrollPrev = some r) :
    r.rooms = rstr.rooms ∧ r.focused = rstr.focused ∧
      (r.selected = rstr.selected ∨ r.selected ∈ rstr.rooms) := by
  unfold ScrollPrev at h
  simp only [] at h
  split at h
  · obtain ⟨x, hx, rfl⟩ := Option.map_eq_some'.mp h
    split
    · exact ⟨rfl, rfl, Or.inr (elemAt_mem _ _ _ hx)⟩
    · exact ⟨rfl, rfl, Or.inr (elemAt_mem _ _ _ hx)⟩
  · cases h
    exact ⟨rfl, rfl, Or.inl rfl⟩

theorem PanelOk_of_frame (rstr r : RosterView) (ok : PanelOk rstr)
    (h : r.rooms = rstr.rooms ∧ r.focused = rstr.focused ∧
      (r.selected = rstr.selected ∨ r.selected ∈ rstr.rooms)) : PanelOk r := by
  obtain ⟨h1, h2, h3⟩ := h
  refine ⟨h1 ▸ ok.1, fun hf => ?_⟩
  rcases h3 with h3 | h3
  · rw [h3]; exact ok.2 (h2 ▸ hf)
  · exact ne_nil_of_mem _ _ ok.1 h3

theorem keySwitch_ok (rstr : RosterView) (command : String) (p : RosterView × Bool)
    (ok : PanelOk rstr) (hclear : command = "clear" → rstr.focused = false)
    (h : rstr.keySwitch command = some p) : PanelOk p.1 := by
  unfold keySwitch at h
  split at h
  · obtain ⟨x, hx, rfl⟩ := Option.map_eq_some'.mp h
    exact PanelOk_of_frame _ _ ok (ScrollNext_frame _ _ hx)
  · split at h
    · obtain ⟨x, hx, rfl⟩ := Option.map_eq_some'.mp h
      exact PanelOk_of_frame _ _ ok (ScrollPrev_frame _ _ hx)
    · split at h
      · rename_i hc
        cases h
        exact ⟨ok.1, fun hf => by rw [hclear hc] at hf; exact absurd hf (by simp)⟩
      · split at h
        · cases h; exact ok
        · split at h
          · cases h
            exact ⟨ok.1, fun hf => by simpa using hf⟩
          · cases h; exact ok

theorem OnKeyEvent_ok (parent : MainView) (rstr : RosterView) (event : KeyEvent)
    (p : RosterView × Bool) (ok : PanelOk rstr)
    (h : rstr.OnKeyEvent parent event = some p) : PanelOk p.1 := by
  unfold OnKeyEvent at h
  split at h
  · split at h
    · exact keySwitch_ok { rstr with focused := false, selected := RoomPtr.nil } _ _
        ⟨ok.1, fun hf => Bool.noConfusion (hf : false = true)⟩ (fun _ => rfl) h
    · rename_i hf hc
      split at h
      · exact absurd h (by simp)
      · split at h
        · cases h; exact ok
        · exact keySwitch_ok _ _ _ ok (fun e => absurd e hc) h
  · rename_i hf
    exact keySwitch_ok _ _ _ ok (fun _ => by simpa using hf) h

theorem OnMouseEvent_ok (parent : MainView) (rstr : RosterView) (event : MouseEvent)
    (p : RosterView × Bool) (ok : PanelOk rstr)
    (h : rstr.OnMouseEvent parent event = some p) : PanelOk p.1 := by
  unfold OnMouseEvent at h
  split at h
  · exact absurd h (by simp)
  · cases h; exact ok
  · split at h
    · cases h; exact ok
    · split at h
      · obtain ⟨x, hx, rfl⟩ := Option.map_eq_some'.mp h
        exact PanelOk_of_frame _ _ ok (ScrollPrev_frame _ _ hx)
      · obtain ⟨x, hx, rfl⟩ := Option.map_eq_some'.mp h
        exact PanelOk_of_frame _ _ ok (ScrollNext_frame _ _ hx)
      · split at h
        · cases h; exact ok
        · simp only [] at h
          split at h
          · cases h; exact ok
          · obtain ⟨x, hx, rfl⟩ := Option.map_eq_some'.mp h
            exact ⟨ok.1, fun _ => ne_nil_of_mem _ _ ok.1 (elemAt_mem _ _ _ hx)⟩
      · cases h; exact ok

theorem Draw_ok (heap : Heap) (parent : MainView) (rstr : RosterView) (width height : Int)
    (p : RosterView × List (Int × RoomPtr)) (ok : PanelOk rstr)
    (h : rstr.Draw heap parent width height = some p) : PanelOk p.1 := by
  unfold Draw at h
  split at h
  · exact absurd h (by simp)
  · cases h; exact ok
  · split at h
    · exact absurd h (by simp)
    · obtain ⟨x, hx, rfl⟩ := Option.map_eq_some'.mp h
      exact ok

theorem panelCall_ok (rstr r : RosterView) (c : PanelCall) (ok : PanelOk rstr)
    (h : rstr.panelCall c = some r) : PanelOk r := by
  cases c with
  | Add heap a =>
    obtain ⟨h1, h2, h3⟩ := Add_frame heap rstr r a ok.1 h
    exact ⟨h1, fun hf => by rw [h2]; exact ok.2 (h3 ▸ hf)⟩
  | Remove a =>
    obtain ⟨h1, h2, h3⟩ := Remove_frame rstr r _ ok.1 h
    exact ⟨h1, fun hf => by rw [h2]; exact ok.2 (h3 ▸ hf)⟩
  | Bump heap a =>
    simp only [panelCall, Bump] at h
    obtain ⟨r1, hr1, hr2⟩ := Option.bind_eq_some.mp h
    obtain ⟨h1, h2, h3⟩ := Remove_frame rstr r1 _ ok.1 hr1
    obtain ⟨k1, k2, k3⟩ := Add_frame heap r1 r a h1 hr2
    exact ⟨k1, fun hf => by rw [k2, h2]; exact ok.2 (h3 ▸ k3 ▸ hf)⟩
  | Key parent event =>
    obtain ⟨p, hp, rfl⟩ := Option.map_eq_some'.mp h
    exact OnKeyEvent_ok parent rstr event p ok hp
  | Mouse parent event =>
    obtain ⟨p, hp, rfl⟩ := Option.map_eq_some'.mp h
    exact OnMouseEvent_ok parent rstr event p ok hp
  | Draw heap parent width height =>
    obtain ⟨p, hp, rfl⟩ := Option.map_eq_some'.mp h
    exact Draw_ok heap parent rstr width height p ok hp

theorem panelRun_ok : ∀ (calls : List PanelCall) (rstr r : RosterView),
    PanelOk rstr → rstr.panelRun calls = some r → PanelOk r
  | [], rstr, r, ok, h => by
    simp only [panelRun, Option.some.injEq] at h
    exact h ▸ ok
  | c :: cs, rstr, r, ok, h => by
    simp only [panelRun] at h
    obtain ⟨r1, h1, h2⟩ := Option.bind_eq_some.mp h
    exact panelRun_ok cs r1 r (panelCall_ok rstr r1 c ok h1) h2

/-- C19. In every state reached from a new panel by a sequence of key events, mouse events,
redraws and `Add`, `Remove` and `Bump` calls on rooms (non-nil pointers), whatever the
timestamps, tombstones and room views are at each call: the roster holds no nil entry,
`focused = true` implies that `selected` is not nil, and so the read of `rstr.selected.ID`
made while focused does not fail. -/
theorem focused_implies_selected (calls : List PanelCall) (r : RosterView)
    (h : NewRosterView.panelRun calls = some r) :
    NoNil r.rooms ∧ (r.focused = true → r.selected ≠ RoomPtr.nil) ∧
    ∀ parent : MainView, r.delegate parent ≠ Delegation.fault := by
  have ok : PanelOk r := panelRun_ok calls NewRosterView r
    ⟨by simp [NoNil, NewRosterView], by simp [NewRosterView]⟩ h
  refine ⟨ok.1, ok.2, fun parent => ?_⟩
  unfold delegate
  split
  · rename_i hf
    have := ok.2 hf
    split
    · rename_i hs
      exact absurd hs this
    · split <;> simp
  · simp

/-- C19 (witness). Room A is added, the wheel selects it and "enter" gives focus: the run
returns a focused state, and its selection is set. -/
theorem focused_implies_selected_witness :
    NewRosterView.panelRun
      [.Add abcHeap 0,
       .Mouse allViews { hasMotion := false, buttons := .WheelDown, y := 0, forwarded := false },
       .Key allViews { command := "enter", forwarded := false }] =
      some { NewRosterView with rooms := [.addr 0], selected := .addr 0, focused := true } ∧
    RosterView.selected
      { NewRosterView with rooms := [.addr 0], selected := .addr 0, focused := true }
      ≠ RoomPtr.nil :=
  ⟨by decide, (focused_implies_selected
    [.Add abcHeap 0,
     .Mouse allViews { hasMotion := false, buttons := .WheelDown, y := 0, forwarded := false },
     .Key allViews { command := "enter", forwarded := false }]
    { NewRosterView with rooms := [.addr 0], selected := .addr 0, focused := true }
    (by decide)).2.1 rfl⟩

/-! ## The selected block stays inside the viewport -/

theorem VisualScrollHeight_eq (rstr : RosterView) (start end_ : Int) (h0 : 0 ≤ start)
    (h1 : start ≤ end_) (hfit : end_ - start ≤ 2 ^ 62 - 2) :
    rstr.VisualScrollHeight start end_ = 3 + 2 * (end_ - start) := by
  unfold VisualScrollHeight
  have e1 : goSub end_ start = end_ - start :=
    wrapInt_eq_self _ (by unfold minInt; omega) (by unfold maxInt; omega)
  have e2 : goMul 2 (end_ - start) = 2 * (end_ - start) :=
    wrapInt_eq_self _ (by unfold minInt; omega) (by unfold maxInt; omega)
  have e3 : goAdd 3 (2 * (end_ - start)) = 3 + 2 * (end_ - start) :=
    wrapInt_eq_self _ (by unfold minInt; omega) (by unfold maxInt; omega)
  rw [if_neg (by omega), e1, e2, e3]

theorem index_getElem (rstr : RosterView) (hd : rstr.rooms.Nodup) (i : Nat)
    (hi : i < rstr.rooms.length) : rstr.index rstr.rooms[i] = (i : Int) := by
  rw [index_eq, if_pos (List.getElem_mem _), List.indexOf_getElem hd i hi]

theorem index_lt_length (rstr : RosterView) (room : RoomPtr) (i : Nat)
    (h : rstr.index room = (i : Int)) : i < rstr.rooms.length := by
  rw [index_eq] at h
  split at h
  · rename_i hm
    have := List.indexOf_lt_length.mpr hm
    omega
  · omega

theorem ScrollNext_not_found (rstr : RosterView) (hne : rstr.rooms ≠ [])
    (hidx : rstr.index rstr.selected = -1) :
    rstr.ScrollNext = some { rstr with
      selected := rstr.rooms.get ⟨0, List.length_pos.mpr hne⟩, scrollOffset := 0 } := by
  unfold ScrollNext
  simp only [hidx, if_true, First]
  rw [show (0 : Int) = ((0 : Nat) : Int) from rfl, elemAt_natCast,
    List.getElem?_eq_getElem (List.length_pos.mpr hne)]
  rfl

theorem ScrollNext_found (rstr : RosterView) (i : Nat)
    (hidx : rstr.index rstr.selected = (i : Int)) (h : i + 1 < rstr.rooms.length) :
    rstr.ScrollNext = some
      (if rstr.VisualScrollHeight rstr.scrollOffset ((i : Int) + 2) ≥ rstr.height then
        { rstr with selected := rstr.rooms[i + 1], scrollOffset := goAdd rstr.scrollOffset 1 }
      else { rstr with selected := rstr.rooms[i + 1] }) := by
  unfold ScrollNext
  simp only [hidx]
  rw [if_neg (by omega), if_pos (by omega),
    show ((i : Int) + 1) = ((i + 1 : Nat) : Int) by push_cast; rfl, elemAt_natCast,
    List.getElem?_eq_getElem h]
  rfl

theorem ScrollPrev_found (rstr : RosterView) (i : Nat)
    (hidx : rstr.index rstr.selected = ((i + 1 : Nat) : Int)) (h : i + 1 < rstr.rooms.length) :
    rstr.ScrollPrev = some
      (if ((i + 1 : Nat) : Int) = rstr.scrollOffset then
        { rstr with selected := rstr.rooms[i], scrollOffset := goSub rstr.scrollOffset 1 }
      else { rstr with selected := rstr.rooms[i] }) := by
  unfold ScrollPrev
  simp only [hidx]
  rw [if_pos (by omega), show (((i + 1 : Nat) : Int) - 1) = ((i : Nat) : Int) by omega,
    elemAt_natCast, List.getElem?_eq_getElem (by omega)]
  rfl

theorem ScrollNext_nav (rooms : List RoomPtr) (h : Int) (s : RosterView)
    (hne : rooms ≠ []) (hd : rooms.Nodup) (hlen : (rooms.length : Int) ≤ maxInt)
    (h6 : 6 ≤ h) (hmax : h ≤ maxInt) (ok : NavOk rooms h s) :
    ∃ s1, s.ScrollNext = some s1 ∧ NavOk rooms h s1 := by
  obtain ⟨hr, hh, hsel⟩ := ok
  subst hr hh
  rcases hsel with hsel | ⟨i, hi, h0, hle, hrow⟩
  · refine ⟨_, ScrollNext_not_found s hne hsel, rfl, rfl, Or.inr ⟨0, ?_, ?_, ?_, ?_⟩⟩
    · exact index_getElem s hd 0 _
    · exact le_refl _
    · exact le_refl _
    · show 5 + 2 * (((0 : Nat) : Int) - 0) < s.height
      omega
  · have hlt := index_lt_length s _ i hi
    by_cases hlast : i + 1 = s.rooms.length
    · refine ⟨s, ?_, rfl, rfl, Or.inr ⟨i, hi, h0, hle, hrow⟩⟩
      unfold ScrollNext
      simp only [hi]
      rw [if_neg (by omega), if_neg (by omega)]
    · have h1 : i + 1 < s.rooms.length := by omega
      have hv : s.VisualScrollHeight s.scrollOffset ((i : Int) + 2)
          = 3 + 2 * ((i : Int) + 2 - s.scrollOffset) :=
        VisualScrollHeight_eq s _ _ h0 (by omega) (by unfold maxInt at hmax; omega)
      have hinc : goAdd s.scrollOffset 1 = s.scrollOffset + 1 :=
        wrapInt_eq_self _ (by unfold minInt; omega) (by omega)
      refine ⟨_, ScrollNext_found s i hi h1, ?_⟩
      rw [hv, hinc]
      split
      · rename_i hge
        refine ⟨rfl, rfl, Or.inr ⟨i + 1, index_getElem s hd (i + 1) h1, ?_, ?_, ?_⟩⟩
        · show 0 ≤ s.scrollOffset + 1
          omega
        · show s.scrollOffset + 1 ≤ ((i + 1 : Nat) : Int)
          omega
        · show 5 + 2 * (((i + 1 : Nat) : Int) - (s.scrollOffset + 1)) < s.height
          omega
      · rename_i hge
        refine ⟨rfl, rfl, Or.inr ⟨i + 1, index_getElem s hd (i + 1) h1, h0, ?_, ?_⟩⟩
        · show s.scrollOffset ≤ ((i + 1 : Nat) : Int)
          omega
        · show 5 + 2 * (((i + 1 : Nat) : Int) - s.scrollOffset) < s.height
          omega

theorem ScrollPrev_nav (rooms : List RoomPtr) (h : Int) (s : RosterView)
    (hd : rooms.Nodup) (hlen : (rooms.length : Int) ≤ maxInt)
    (h6 : 6 ≤ h) (ok : NavOk rooms h s) :
    ∃ s1, s.ScrollPrev = some s1 ∧ NavOk rooms h s1 := by
  obtain ⟨hr, hh, hsel⟩ := ok
  subst hr hh
  have hstay : s.index s.selected ≤ 0 → s.ScrollPrev = some s := by
    intro hle
    unfold ScrollPrev
    simp only []
    rw [if_neg (by omega)]
  rcases hsel with hsel | ⟨i, hi, h0, hle, hrow⟩
  · exact ⟨s, hstay (by omega), rfl, rfl, Or.inl hsel⟩
  · cases i with
    | zero => exact ⟨s, hstay (by omega), rfl, rfl, Or.inr ⟨0, hi, h0, hle, hrow⟩⟩
    | succ j =>
      have hlt := index_lt_length s _ (j + 1) hi
      refine ⟨_, ScrollPrev_found s j hi hlt, ?_⟩
      split
      · rename_i heq
        have hdec : goSub s.scrollOffset 1 = s.scrollOffset - 1 :=
          wrapInt_eq_self _ (by unfold minInt; omega) (by omega)
        rw [hdec]
        refine ⟨rfl, rfl, Or.inr ⟨j, index_getElem s hd j (by omega), ?_, ?_, ?_⟩⟩
        · show 0 ≤ s.scrollOffset - 1
          omega
        · show s.scrollOffset - 1 ≤ (j : Int)
          omega
        · show 5 + 2 * ((j : Int) - (s.scrollOffset - 1)) < s.height
          omega
      · rename_i hneq
        refine ⟨rfl, rfl, Or.inr ⟨j, index_getElem s hd j (by omega), h0, ?_, ?_⟩⟩
        · show s.scrollOffset ≤ (j : Int)
          omega
        · show 5 + 2 * ((j : Int) - s.scrollOffset) < s.height
          omega

theorem navigate_nav (rooms : List RoomPtr) (h : Int)
    (hne : rooms ≠ []) (hd : rooms.Nodup) (hlen : (rooms.length : Int) ≤ maxInt)
    (h6 : 6 ≤ h) (hmax : h ≤ maxInt) : ∀ (steps : List Nav) (s : RosterView),
    NavOk rooms h s → ∃ s1, s.navigate steps = some s1 ∧ NavOk rooms h s1
  | [], s, ok => ⟨s, rfl, ok⟩
  | .next :: steps, s, ok => by
    obtain ⟨s1, e1, ok1⟩ := ScrollNext_nav rooms h s hne hd hlen h6 hmax ok
    obtain ⟨s2, e2, ok2⟩ := navigate_nav rooms h hne hd hlen h6 hmax steps s1 ok1
    exact ⟨s2, by simp [navigate, e1, e2], ok2⟩
  | .prev :: steps, s, ok => by
    obtain ⟨s1, e1, ok1⟩ := ScrollPrev_nav rooms h s hd hlen h6 ok
    obtain ⟨s2, e2, ok2⟩ := navigate_nav rooms h hne hd hlen h6 hmax steps s1 ok1
    exact ⟨s2, by simp [navigate, e1, e2], ok2⟩

/-- On a non-empty roster that holds no entry twice (and whose length is a value of `int`),
in a viewport of height `h` with `6 <= h`, starting from a state in which the lookup of the
selection finds nothing: every sequence of `ScrollNext` and `ScrollPrev` calls returns,
leaves roster and height as they were, and whenever the lookup then finds the selected
entry at index `i`, `0 <= scrollOffset <= i` and
`VisualScrollHeight(scrollOffset, i + 1) < h`. -/
theorem navigation_window_of_nodup (rstr : RosterView) (steps : List Nav)
    (hne : rstr.rooms ≠ []) (hd : rstr.rooms.Nodup)
    (hlen : (rstr.rooms.length : Int) ≤ maxInt)
    (h6 : 6 ≤ rstr.height) (hmax : rstr.height ≤ maxInt)
    (hsel : rstr.index rstr.selected = -1) :
    ∃ s, rstr.navigate steps = some s ∧ s.rooms = rstr.rooms ∧ s.height = rstr.height ∧
      ∀ i : Nat, s.index s.selected = (i : Int) →
        0 ≤ s.scrollOffset ∧ s.scrollOffset ≤ (i : Int) ∧
        s.VisualScrollHeight s.scrollOffset ((i : Int) + 1) < rstr.height ∧
        0 ≤ 4 + 2 * ((i : Int) - s.scrollOffset) ∧
        5 + 2 * ((i : Int) - s.scrollOffset) < rstr.height := by
  obtain ⟨s, e, hr, hh, ok⟩ := navigate_nav rstr.rooms rstr.height hne hd hlen h6 hmax steps
    rstr ⟨rfl, rfl, Or.inl hsel⟩
  refine ⟨s, e, hr, hh, ?_⟩
  intro i hi
  rcases ok with ok | ⟨j, hj, h0, hle, hrow⟩
  · omega
  · have hij : i = j := by omega
    subst hij
    have hv := VisualScrollHeight_eq s s.scrollOffset ((i : Int) + 1) h0 (by omega)
      (by unfold maxInt at hmax; omega)
    refine ⟨h0, hle, ?_, by omega, hrow⟩
    rw [hv]
    omega

/-- C20 (the code at the failing input). Rooms 0 and 1 are added, the timestamp of room 1
rises and `Add` of room 1 stores it a second time (the defect of `Add` on an entry already
present): the roster is [1, 0, 1].  After a redraw on a screen of height 7, with nothing
selected, four `ScrollNext` calls select room 1, room 0, room 1 (the lookup then finds it
at its first position, index 0) and room 0 again, with scroll offsets 0, 1, 2, 2.  Room 0
is then selected at index 1 while `scrollOffset` is 2, so `scrollOffset <= i` fails, and
`Draw` paints only the entry at index 2: the selected room is not on the screen.  On a
roster without the duplicate (room 1 removed once) the same four calls keep the selection
in the window. -/
theorem duplicate_entry_selection_above_window :
    NewRosterView.panelRun
      [.Add staleHeapBefore 0, .Add staleHeapBefore 1, .Add (touch staleHeapBefore 1 600) 1,
       .Draw (touch staleHeapBefore 1 600) allViews 80 7] = some dupRoster ∧
    dupRoster.rooms ≠ [] ∧ (6 : Int) ≤ dupRoster.height ∧
    dupRoster.index dupRoster.selected = -1 ∧
    dupRoster.navigate [.next, .next, .next, .next] =
      some { dupRoster with selected := .addr 0, scrollOffset := 2 } ∧
    RosterView.index { dupRoster with selected := .addr 0, scrollOffset := 2 } (.addr 0) = 1 ∧
    ¬ (RosterView.scrollOffset { dupRoster with selected := .addr 0, scrollOffset := 2 } ≤
      RosterView.index { dupRoster with selected := .addr 0, scrollOffset := 2 } (.addr 0)) ∧
    RosterView.Draw (touch staleHeapBefore 1 600) allViews
      { dupRoster with selected := .addr 0, scrollOffset := 2 } 80 7 =
      some ({ dupRoster with selected := .addr 0, scrollOffset := 2 },
        [(4, RoomPtr.addr 1)]) ∧
    RosterView.navigate { dupRoster with rooms := [.addr 0, .addr 1] }
        [.next, .next, .next, .next] =
      some { dupRoster with rooms := [.addr 0, .addr 1], selected := .addr 1,
                            scrollOffset := 1 } := by
  refine ⟨?_, by decide, by decide, by decide, by decide, by decide, by decide, by decide,
    by decide⟩
  set_option maxRecDepth 4000 in decide

/-! ## An accepted click -/

/-- What `OnMouseEvent` does with a click it does not reject, in an unfocused state with
`0 <= scrollOffset` and a height that is a value of `int` with `h - 3` also one: the index
is exactly `scrollOffset + y/2 - 2`, it is at least `scrollOffset`, a click past the last
entry changes nothing and returns `false`, and any other click selects the entry at that
index, sets `focused` and returns `true`. -/
theorem OnMouseEvent_accepted_click (parent : MainView) (rstr : RosterView)
    (event : MouseEvent) (hf : rstr.focused = false) (hm : event.hasMotion = false)
    (hb : event.buttons = Buttons.Button1)
    (h0 : 0 ≤ rstr.scrollOffset) (hso : rstr.scrollOffset ≤ maxInt)
    (hlo : minInt + 3 ≤ rstr.height) (hhi : rstr.height ≤ maxInt)
    (hy : ¬ (event.y ≤ 3 ∨
      event.y > rstr.VisualScrollHeight rstr.scrollOffset rstr.IndexOfLastVisibleRoom)) :
    rstr.scrollOffset ≤ rstr.scrollOffset + event.y / 2 - 2 ∧
    (rstr.scrollOffset + event.y / 2 - 2 > (rstr.rooms.length : Int) - 1 →
      rstr.OnMouseEvent parent event = some (rstr, false)) ∧
    (rstr.scrollOffset + event.y / 2 - 2 ≤ (rstr.rooms.length : Int) - 1 →
      ∃ room, rstr.rooms[(rstr.scrollOffset + event.y / 2 - 2).toNat]? = some room ∧
        rstr.OnMouseEvent parent event =
          some ({ rstr with selected := room, focused := true }, true)) := by
  have hR : rstr.RoomsOnScreen = Int.tdiv (rstr.height - 3) 2 := by
    unfold RoomsOnScreen goDiv goSub
    rw [wrapInt_eq_self (rstr.height - 3) (by unfold minInt at *; omega)
      (by unfold maxInt at *; omega)]
    apply wrapInt_eq_self
    · rw [tdiv_two]; unfold minInt at *; unfold maxInt at hhi; split <;> omega
    · rw [tdiv_two]; unfold minInt at hlo; unfold maxInt at *; split <;> omega
  have hy3 : 3 < event.y := by omega
  have key : 0 ≤ rstr.RoomsOnScreen ∧ event.y ≤ 3 + 2 * rstr.RoomsOnScreen ∧
      rstr.scrollOffset + rstr.RoomsOnScreen ≤ maxInt := by
    have hy2 : ¬ event.y >
        rstr.VisualScrollHeight rstr.scrollOffset rstr.IndexOfLastVisibleRoom := by
      intro h; exact hy (Or.inr h)
    unfold VisualScrollHeight IndexOfLastVisibleRoom at hy2
    rw [hR] at hy2 ⊢
    rw [tdiv_two] at hy2 ⊢
    unfold goAdd goSub goMul wrapInt at hy2
    unfold minInt at hlo
    unfold maxInt at hhi hso ⊢
    split at hy2 <;> split at hy2 <;> split <;> omega
  obtain ⟨hR0, hyR, hL⟩ := key
  have htd : Int.tdiv event.y 2 = event.y / 2 := Int.tdiv_eq_ediv (by omega) (by decide)
  have hidx : goSub (goAdd rstr.scrollOffset (goDiv event.y 2)) 2
      = rstr.scrollOffset + event.y / 2 - 2 := by
    unfold goSub goAdd goDiv
    rw [htd]
    unfold wrapInt
    unfold maxInt at hL hso
    omega
  refine ⟨by omega, ?_, ?_⟩
  · intro hgt
    unfold OnMouseEvent delegate
    simp only [hf, hm, hb, Bool.false_eq_true, if_false]
    rw [if_neg hy]
    simp only [hidx]
    rw [if_pos hgt]
  · intro hle
    have hnat : ((rstr.scrollOffset + event.y / 2 - 2).toNat : Int)
        = rstr.scrollOffset + event.y / 2 - 2 := Int.toNat_of_nonneg (by omega)
    have hlt : (rstr.scrollOffset + event.y / 2 - 2).toNat < rstr.rooms.length := by omega
    refine ⟨rstr.rooms[(rstr.scrollOffset + event.y / 2 - 2).toNat],
      List.getElem?_eq_getElem hlt, ?_⟩
    unfold OnMouseEvent delegate
    simp only [hf, hm, hb, Bool.false_eq_true, if_false]
    rw [if_neg hy]
    simp only [hidx]
    have he : elemAt rstr.rooms (rstr.scrollOffset + event.y / 2 - 2)
        = rstr.rooms[(rstr.scrollOffset + event.y / 2 - 2).toNat]? := by
      unfold elemAt
      rw [if_pos (by omega)]
      simp
    rw [if_neg (by omega), he, List.getElem?_eq_getElem hlt]
    rfl

end Gomuks
